import Mathlib

/-!
Verification of the CuboHorarios schedule ETL + OLAP cube against its
natural-language specification.  The Python sources (ETL.py,
cubo_horarios_olap.py, cubo.py) are shallowly embedded: dataframe rows become
structures, columns of Python scalars become `Option String` / `Option Nat`
values, `None`/`NaN` cells become `none`, and the pandas operations used by the
code (merge, drop_duplicates, pivot_table, sort_values, str.contains) are
modelled as list functions with matching semantics.
-/

namespace CuboHorarios

/-- Python cell value in the schedule dataframes: `none` models `None`/`NaN`,
`some s` models the string `s`. -/
abbrev Val := Option String

/-- Python `str(x)` applied to a cell value: `None` renders as `"None"`. -/
def pyStr : Val → String
  | none => "None"
  | some s => s

/-- Time of day, as seconds since midnight (datetime.time carries h/m/s). -/
abbrev Time := Nat

/-- Build a whole-minute time of day. -/
def mkTime (h m : Nat) : Time := h * 3600 + m * 60

/-- Characters of the regex class `\s` (ASCII fragment used by the data). -/
def isWs (c : Char) : Bool :=
  c == ' ' || c == '\t' || c == '\n' || c == '\r' || c == '\x0b' || c == '\x0c'

/-- Numeric value of a decimal digit character. -/
def digitVal (c : Char) : Nat := c.toNat - 48

/-- Parse exactly two decimal digits (regex `\d{2}`) from the front. -/
def twoDigits : List Char → Option (Nat × List Char)
  | c1 :: c2 :: rest =>
    if c1.isDigit && c2.isDigit then some (digitVal c1 * 10 + digitVal c2, rest)
    else none
  | _ => none

/-- Minute part `[:]?(\d{2})` of the time pattern in `ETL.parse_hora`.  The
regex engine tries the optional colon present first; when the colon is present
but no two digits follow, backtracking retries without the colon (which then
fails on the colon character itself). -/
def colonMinutes (cs : List Char) : Option (Nat × List Char) :=
  match cs with
  | ':' :: rest =>
    match twoDigits rest with
    | some r => some r
    | none => twoDigits cs
  | _ => twoDigits cs

/-- One `(\d{1,2})[:]?(\d{2})` time part of the pattern in `ETL.parse_hora`, in
continuation-passing style so that backtracking across the rest of the pattern
is exact: the greedy two-digit hour is preferred, and the one-digit hour is
retried whenever the remainder of the pattern fails. -/
def timePart (cs : List Char) (k : Nat → Nat → List Char → Option α) : Option α :=
  match cs with
  | c1 :: c2 :: rest =>
    if c1.isDigit then
      let tryTwo : Option α :=
        if c2.isDigit then
          match colonMinutes rest with
          | some (m, rest2) => k (digitVal c1 * 10 + digitVal c2) m rest2
          | none => none
        else none
      match tryTwo with
      | some r => some r
      | none =>
        match colonMinutes (c2 :: rest) with
        | some (m, rest2) => k (digitVal c1) m rest2
        | none => none
    else none
  | _ => none

/-- The full pattern `(\d{1,2}):?(\d{2})[-–](\d{1,2}):?(\d{2})` of
`ETL.parse_hora`, matched as a prefix (Python `re.match` anchors only at the
start), returning the four captured groups. -/
def matchRango (cs : List Char) : Option (Nat × Nat × Nat × Nat) :=
  timePart cs (fun h1 m1 rest =>
    match rest with
    | c :: rest2 =>
      if c == '-' || c == '–' then
        timePart rest2 (fun h2 m2 _ => some (h1, m1, h2, m2))
      else none
    | [] => none)

/-- Python `re.sub(r"\s+", "", rango.strip())`: delete every whitespace char. -/
def stripAllWs (s : String) : String := ⟨s.toList.filter (fun c => !isWs c)⟩

/-- Model of `ETL.parse_hora`.  Returns the `pd.Series` triple
`(h_inicio, h_fin, duracion_min)`.  Each `return` statement of the source
yields either all three values or none of the three.  A matched endpoint is a
valid time iff `pd.to_datetime(_, format="%H:%M")` accepts its zero-padded
rendering, i.e. hour at most 23 and minute at most 59; the duration is the
truncated quotient of the second difference by 60 and must be positive. -/
def parse_hora (rango : Val) : Option Time × Option Time × Option Nat :=
  match rango with
  | none => (none, none, none)
  | some s =>
    match matchRango (stripAllWs s).toList with
    | none => (none, none, none)
    | some (h1, m1, h2, m2) =>
      if h1 ≤ 23 && m1 ≤ 59 && h2 ≤ 23 && m2 ≤ 59 then
        let tStart := mkTime h1 m1
        let tStop := mkTime h2 m2
        let dur : Int := ((tStop : Int) - (tStart : Int)) / 60
        if dur ≤ 0 then (none, none, none)
        else (some tStart, some tStop, some dur.toNat)
      else (none, none, none)

/-- Collapse each whitespace run to one space (`re.sub(r"\s+", " ", x)`); the
flag records whether the previous character was inside a whitespace run. -/
def collapseWs : Bool → List Char → List Char
  | _, [] => []
  | prevWs, c :: rest =>
    if isWs c then
      if prevWs then collapseWs true rest else ' ' :: collapseWs true rest
    else c :: collapseWs false rest

/-- Python `str.strip()`: drop leading and trailing whitespace. -/
def stripChars (cs : List Char) : List Char :=
  ((cs.dropWhile (fun c => isWs c)).reverse.dropWhile (fun c => isWs c)).reverse

/-- Python `str.replace(" - ", " ")`: non-overlapping left-to-right. -/
def replaceDashSep : List Char → List Char
  | ' ' :: '-' :: ' ' :: rest => ' ' :: replaceDashSep rest
  | c :: rest => c :: replaceDashSep rest
  | [] => []

/-- Python `str.title()` (ASCII model): the first character of each alphabetic
run is uppercased, later characters of the run are lowercased. -/
def titleChars : Bool → List Char → List Char
  | _, [] => []
  | prevAlpha, c :: rest =>
    if c.isAlpha then
      (if prevAlpha then c.toLower else c.toUpper) :: titleChars true rest
    else c :: titleChars false rest

/-- Model of `ETL.normalizar_profesor`: non-strings give `None`; strings have
whitespace collapsed, are stripped, have `" - "` replaced by a space, and are
title-cased. -/
def normalizar_profesor : Val → Val
  | none => none
  | some s => some ⟨titleChars false (replaceDashSep (stripChars (collapseWs false s.toList)))⟩

/-- Raw extracted row: the seven expected schedule columns, as free cells
(`origen_pdf` is a constant tag and carries no algorithmic content). -/
structure RawRow where
  nrc : Val
  clave : Val
  materia : Val
  dias : Val
  hora : Val
  profesor : Val
  salon : Val
deriving DecidableEq, Repr

/-- Row after professor normalization and time parsing in `transform_all`. -/
structure ParsedRow extends RawRow where
  h_inicio : Option Time
  h_fin : Option Time
  duracion_min : Option Nat
deriving DecidableEq, Repr

/-- The per-row normalization of `transform_all` before day explosion:
`raw["profesor"].apply(normalizar_profesor)` and
`raw["hora"].apply(parse_hora)`. -/
def parseRow (r : RawRow) : ParsedRow :=
  let t := parse_hora r.hora
  { toRawRow := { r with profesor := normalizar_profesor r.profesor },
    h_inicio := t.1, h_fin := t.2.1, duracion_min := t.2.2 }

/-- Row emitted by the day expander: a parsed row plus one day pair. -/
structure ExpRow extends ParsedRow where
  dia_codigo : String
  dia_semana : String
deriving DecidableEq, Repr

/-- Python `str.replace(" ", "")`: delete space characters only. -/
def dropSpaces (s : String) : String := ⟨s.toList.filter (fun c => c != ' ')⟩

/-- The `DIA_MAP.get(d, d)` lookup of `ETL.explotar_por_dia`. -/
def DIA_MAP (d : String) : String :=
  if d = "L" then "Lunes"
  else if d = "A" then "Martes"
  else if d = "M" then "Miercoles"
  else if d = "J" then "Jueves"
  else if d = "V" then "Viernes"
  else if d = "S" then "Sábado"
  else d

/-- Python `str.split(sep)` for a one-character separator (keeps empty
fields, as Python does). -/
def splitOnChar (sep : Char) : List Char → List (List Char)
  | [] => [[]]
  | c :: rest =>
    if c = sep then [] :: splitOnChar sep rest
    else
      match splitOnChar sep rest with
      | t :: ts => (c :: t) :: ts
      | [] => [[c]]

/-- Tokenization of `ETL.explotar_por_dia`: split on commas when a comma is
present, otherwise one token per character. -/
def diaTokens (dias : String) : List String :=
  let cs := dias.toList
  if cs.contains ',' then (splitOnChar ',' cs).map (fun t => String.mk t)
  else cs.map (fun c => String.singleton c)

/-- The inner loop body of `ETL.explotar_por_dia` for one source row:
`str(row["días"]).replace(" ", "")`, tokenize, and emit one copied row per
token with the `dia_codigo`/`dia_semana` pair set. -/
def explodeRow (row : ParsedRow) : List ExpRow :=
  (diaTokens (dropSpaces (pyStr row.dias))).map (fun d =>
    { toParsedRow := row, dia_codigo := d, dia_semana := DIA_MAP d })

/-- Model of `ETL.explotar_por_dia`: the accumulating loop over all rows. -/
def explotar_por_dia : List ParsedRow → List ExpRow
  | [] => []
  | row :: rest => explodeRow row ++ explotar_por_dia rest

/-- Regex `\w` (ASCII fragment). -/
def isWordChar (c : Char) : Bool := c.isAlphanum || c == '_'

/-- Model of `ETL.split_salon` with pattern `([^/]+)/?(\w+)?` under `re.match`:
non-strings give all-absent; a stripped string that starts with `/` (or is
empty) fails the match and yields `(s, None, s)`; otherwise the building is the
maximal leading `/`-free run, the room is the maximal `\w` run after an
optional `/`, and the full stripped text is kept as the composite code. -/
def split_salon (s : Val) : Val × Val × Val :=
  match s with
  | none => (none, none, none)
  | some raw =>
    let cs := stripChars raw.toList
    let str : String := ⟨cs⟩
    match cs with
    | [] => (some str, none, some str)
    | c :: _ =>
      if c == '/' then (some str, none, some str)
      else
        let edificio := cs.takeWhile (fun ch => ch != '/')
        let rest := cs.dropWhile (fun ch => ch != '/')
        let aula : Val :=
          match rest with
          | '/' :: r2 =>
            let w := r2.takeWhile isWordChar
            if w.isEmpty then none else some ⟨w⟩
          | _ => none
        (some ⟨edificio⟩, aula, some str)

/-- Fully curated row: expanded row plus the split room columns. -/
structure CuratedRow extends ExpRow where
  edificio : Val
  aula : Val
  codigo_salon : Val
deriving DecidableEq, Repr

/-- `curated[["edificio","aula","codigo_salon"]] = curated["salón"].apply(split_salon)`. -/
def addSalon (r : ExpRow) : CuratedRow :=
  let t := split_salon r.salon
  { toExpRow := r, edificio := t.1, aula := t.2.1, codigo_salon := t.2.2 }

/-- The curated row set produced inside `ETL.transform_all` (normalize, parse,
explode by day, split the room code). -/
def curate (raw : List RawRow) : List CuratedRow :=
  (explotar_por_dia (raw.map parseRow)).map addSalon

/-- Pandas `drop_duplicates()` with an accumulator of already-seen values. -/
def dedupFirstAux [DecidableEq κ] (seen : List κ) : List κ → List κ
  | [] => []
  | a :: rest =>
    if a ∈ seen then dedupFirstAux seen rest
    else a :: dedupFirstAux (a :: seen) rest

/-- Pandas `drop_duplicates()`: keep the first occurrence of each value. -/
def dedupFirst [DecidableEq κ] (xs : List κ) : List κ := dedupFirstAux [] xs

/-- Assign consecutive identifiers starting at `n` (`range(start, start+len)`). -/
def numberFrom (n : Nat) : List κ → List (Nat × κ)
  | [] => []
  | a :: rest => (n, a) :: numberFrom (n + 1) rest

/-- Model of `ETL.build_dim`: deduplicate the kept key columns (first
occurrence wins) and insert a dense 1-based surrogate id. -/
def build_dim [DecidableEq κ] (keys : List κ) : List (Nat × κ) :=
  numberFrom 1 (dedupFirst keys)

/-- Key columns of `dim_materia`. -/
structure MateriaKey where
  clave : Val
  materia : Val
deriving DecidableEq, Repr

/-- Key columns of `dim_espacio`. -/
structure EspacioKey where
  edificio : Val
  aula : Val
  codigo_salon : Val
deriving DecidableEq, Repr

/-- Key columns of `dim_tiempo`. -/
structure TiempoKey where
  dia_codigo : String
  dia_semana : String
  h_inicio : Option Time
  h_fin : Option Time
deriving DecidableEq, Repr

/-- Python `"|".join(df[key_cols].astype(str))` over the key columns. -/
def pyKey (vals : List Val) : String := String.intercalate "|" (vals.map pyStr)

/-- Model of `ETL.map_id`: both sides are keyed by the `"|"`-joined string
rendering of their key columns and left-merged with `validate="m:1"`, which
raises `MergeError` when two dimension rows render to the same string key;
otherwise every fact row receives the id of the unique matching dimension row,
or an absent id when no key matches. -/
def map_id (dfKeys : List String) (dimPairs : List (String × Nat)) :
    Except String (List (Option Nat)) :=
  if (dimPairs.map Prod.fst).Nodup then
    .ok (dfKeys.map (fun k => (dimPairs.find? (fun p => p.1 == k)).map Prod.snd))
  else .error "MergeError"

/-- Fact row (`hechos_horarios`): four foreign keys plus the carried columns. -/
structure FactRow where
  id_docente : Option Nat
  id_materia : Option Nat
  id_espacio : Option Nat
  id_tiempo : Option Nat
  nrc : Val
  clave : Val
  seccion : Val
  duracion_min : Option Nat
deriving DecidableEq, Repr

/-- Materia key columns of a curated row. -/
def materiaKeyOf (c : CuratedRow) : MateriaKey := ⟨c.clave, c.materia⟩

/-- Espacio key columns of a curated row. -/
def espacioKeyOf (c : CuratedRow) : EspacioKey := ⟨c.edificio, c.aula, c.codigo_salon⟩

/-- Tiempo key columns of a curated row. -/
def tiempoKeyOf (c : CuratedRow) : TiempoKey := ⟨c.dia_codigo, c.dia_semana, c.h_inicio, c.h_fin⟩

/-- The direct `hechos.merge(dim_tiempo, on=[...], how="left")` of
`transform_all`: an exact match on the four tiempo columns (pandas merge keys
treat `NaN` as equal to `NaN`); `dim_tiempo` is deduplicated on exactly these
columns, so at most one row matches. -/
def lookupTiempo (dimTmp : List (Nat × TiempoKey)) (c : CuratedRow) : Option Nat :=
  (dimTmp.find? (fun p => p.2 == tiempoKeyOf c)).map Prod.fst

/-- Zip the curated rows with the three id columns produced by `map_id` and
resolve `id_tiempo`, producing the fact table in curated-row order. -/
def zipFacts (dimTmp : List (Nat × TiempoKey)) :
    List CuratedRow → List (Option Nat) → List (Option Nat) → List (Option Nat) → List FactRow
  | c :: cs, i1 :: r1, i2 :: r2, i3 :: r3 =>
    { id_docente := i1, id_materia := i2, id_espacio := i3,
      id_tiempo := lookupTiempo dimTmp c,
      nrc := c.nrc, clave := c.clave, seccion := c.dias,
      duracion_min := c.duracion_min } :: zipFacts dimTmp cs r1 r2 r3
  | _, _, _, _ => []

/-- The star schema returned by `transform_all` (dimension value columns keep
their dataframe shape; at insert time `profesor` is renamed `nombreCompleto`
and `materia` is renamed `nombreMateria`, a pure relabelling). -/
structure StarSchema where
  dim_docente : List (Nat × Val)
  dim_materia : List (Nat × MateriaKey)
  dim_espacio : List (Nat × EspacioKey)
  dim_tiempo : List (Nat × TiempoKey)
  hechos : List FactRow
deriving DecidableEq, Repr

/-- Model of `ETL.transform_all`: curate the raw rows, build the four
dimensions, and assemble the fact table; each `map_id` call can raise
`MergeError` (modelled as `Except.error`). -/
def transform_all (raw : List RawRow) : Except String StarSchema := do
  let curated := curate raw
  let dimDoc := build_dim (curated.map (fun c => c.profesor))
  let dimMat := build_dim (curated.map materiaKeyOf)
  let dimEsp := build_dim (curated.map espacioKeyOf)
  let dimTmp := build_dim (curated.map tiempoKeyOf)
  let idsDoc ← map_id (curated.map (fun c => pyStr c.profesor))
    (dimDoc.map (fun p => (pyStr p.2, p.1)))
  let idsMat ← map_id (curated.map (fun c => pyKey [c.clave, c.materia]))
    (dimMat.map (fun p => (pyKey [p.2.clave, p.2.materia], p.1)))
  let idsEsp ← map_id (curated.map (fun c => pyStr c.codigo_salon))
    (dimEsp.map (fun p => (pyStr p.2.codigo_salon, p.1)))
  return ⟨dimDoc, dimMat, dimEsp, dimTmp, zipFacts dimTmp curated idsDoc idsMat idsEsp⟩

/-- A stored value of a time-of-day column as seen by `_to_time_safe`:
`pynone` is `None`/`NaN`/`NaT`, `time` an existing `datetime.time`,
`timedelta` a duration in whole seconds, `str` any other value via `str(x)`. -/
inductive PyTimeVal where
  | pynone
  | time (t : Time)
  | timedelta (secs : Int)
  | str (s : String)
deriving DecidableEq, Repr

/-- Decimal value of a digit list, or `none` when empty or not all digits. -/
def digitsToNat? (cs : List Char) : Option Nat :=
  if cs ≠ [] && cs.all Char.isDigit then
    some (cs.foldl (fun n c => n * 10 + digitVal c) 0)
  else none

/-- Model of `pd.to_datetime(s, errors="coerce").time()` on the colon-separated
time-of-day shapes (`"H:MM"`, `"HH:MM"`, `"HH:MM:SS"`), the shapes this
pipeline's own columns hold; within them an out-of-range field coerces to
`NaT`, hence `none`.  Strings outside these shapes are outside the model (the
`dateutil` parser behind `pd.to_datetime` accepts more, e.g. `"8am"`); the
`hourShape` guard marks the modelled fragment where a theorem quantifies over
arbitrary strings. -/
def pdToDatetimeTime (s : String) : Option Time :=
  let part (cs : List Char) (lo hi : Nat) (bound : Nat) : Option Nat :=
    if lo ≤ cs.length && cs.length ≤ hi then
      match digitsToNat? cs with
      | some n => if n ≤ bound then some n else none
      | none => none
    else none
  match splitOnChar ':' s.toList with
  | [h, m] =>
    match part h 1 2 23, part m 2 2 59 with
    | some hv, some mv => some (mkTime hv mv)
    | _, _ => none
  | [h, m, sec] =>
    match part h 1 2 23, part m 2 2 59, part sec 2 2 59 with
    | some hv, some mv, some sv => some (mkTime hv mv + sv)
    | _, _, _ => none
  | _ => none

/-- Model of `cubo_horarios_olap._to_time_safe` (identical in behaviour to
`cubo.to_time_safe`, whose `NaT.time()` raise is caught by its `except`).
Sentinels and `None`/`NaN` give `None`; an existing time passes through; a
timedelta is decomposed with `divmod` and rebuilt with `datetime.time(h, m, s)`
— a call sitting outside the `try`, so an hour outside 0..23 raises
`ValueError`; any other value is string-parsed with errors coerced. -/
def to_time_safe : PyTimeVal → Except String (Option Time)
  | .pynone => .ok none
  | .time t => .ok (some t)
  | .timedelta secs =>
    let h : Int := secs.fdiv 3600
    let rm : Int := secs.fmod 3600
    let m : Int := rm.fdiv 60
    let s : Int := rm.fmod 60
    if 0 ≤ h ∧ h ≤ 23 then .ok (some (h.toNat * 3600 + m.toNat * 60 + s.toNat))
    else .error "ValueError"
  | .str s =>
    if s = "" || s = "NaT" || s = "None" then .ok none
    else .ok (pdToDatetimeTime s)

/-- The fixed day ordering bound to `dia_semana` by the cube builder. -/
def ORDEN_DIAS : List String :=
  ["Lunes", "Martes", "Miercoles", "Jueves", "Viernes", "Sabado"]

/-- `pd.Categorical(values, categories=ORDEN_DIAS, ordered=True)` on a cell:
a value outside the category list becomes `NaN`. -/
def categorize (v : Option String) : Option String :=
  v.bind (fun d => if d ∈ ORDEN_DIAS then some d else none)

/-- The `_to_time_safe` application of the cube builder on a joined time cell,
whose stored form is a time value or an absent cell. -/
def toTimeCell (v : Option Time) : Option Time :=
  match to_time_safe (match v with | none => PyTimeVal.pynone | some t => PyTimeVal.time t) with
  | .ok r => r
  | .error _ => none

/-- One row of the denormalized cube view built by `Horario_cubo.__init__`. -/
structure CubeRow where
  id_docente : Option Nat
  id_materia : Option Nat
  id_espacio : Option Nat
  id_tiempo : Option Nat
  nrc : Val
  seccion : Val
  duracion_min : Option Nat
  nombreCompleto : Val
  clave : Val
  nombreMateria : Val
  edificio : Val
  aula : Val
  codigo_salon : Val
  dia_codigo : Option String
  dia_semana : Option String
  h_inicio : Option Time
  h_fin : Option Time
deriving DecidableEq, Repr

/-- Model of `Horario_cubo.__init__` (cubo_horarios_olap.py): left-join the
facts against the four dimensions on their surrogate ids, reconcile the
duplicated `clave` column with `combine_first` (the dimension value wins, the
fact value is the fallback), pass the joined time columns through
`_to_time_safe`, and bind `dia_semana` to the `ORDEN_DIAS` categorical.  The
`duracion_min` recomputation branch is not taken because the fact table already
carries that column.  Dimension attribute names are the loaded ones
(`nombreCompleto`, `nombreMateria`), per the rename applied at insert. -/
def Horario_cubo_init (hechos : List FactRow) (dimDoc : List (Nat × Val))
    (dimMat : List (Nat × MateriaKey)) (dimEsp : List (Nat × EspacioKey))
    (dimTmp : List (Nat × TiempoKey)) : List CubeRow :=
  hechos.map (fun h =>
    let d1 := h.id_docente.bind (fun i => dimDoc.find? (fun p => p.1 == i))
    let d2 := h.id_materia.bind (fun i => dimMat.find? (fun p => p.1 == i))
    let d3 := h.id_espacio.bind (fun i => dimEsp.find? (fun p => p.1 == i))
    let d4 := h.id_tiempo.bind (fun i => dimTmp.find? (fun p => p.1 == i))
    { id_docente := h.id_docente, id_materia := h.id_materia,
      id_espacio := h.id_espacio, id_tiempo := h.id_tiempo,
      nrc := h.nrc, seccion := h.seccion, duracion_min := h.duracion_min,
      nombreCompleto := d1.bind Prod.snd,
      clave := Option.or (d2.bind (fun p => p.2.clave)) h.clave,
      nombreMateria := d2.bind (fun p => p.2.materia),
      edificio := d3.bind (fun p => p.2.edificio),
      aula := d3.bind (fun p => p.2.aula),
      codigo_salon := d3.bind (fun p => p.2.codigo_salon),
      dia_codigo := d4.map (fun p => p.2.dia_codigo),
      dia_semana := categorize (d4.map (fun p => p.2.dia_semana)),
      h_inicio := toTimeCell (d4.bind (fun p => p.2.h_inicio)),
      h_fin := toTimeCell (d4.bind (fun p => p.2.h_fin)) })

/-- Stable insertion: `x` is placed after every element `le` to it, so equal
keys keep their arrival order. -/
def insertLe (le : α → α → Bool) (x : α) : List α → List α
  | [] => [x]
  | y :: rest => if le y x then y :: insertLe le x rest else x :: y :: rest

/-- Stable insertion sort with respect to a boolean comparison. -/
def sortByLe (le : α → α → Bool) (xs : List α) : List α :=
  xs.foldl (fun acc x => insertLe le x acc) []

/-- Lexicographic order on numeric key lists (one entry per sort level). -/
def lexLe : List Nat → List Nat → Bool
  | [], _ => true
  | _ :: _, [] => false
  | a :: x, b :: y => if a < b then true else if b < a then false else lexLe x y

/-- Categorical sort rank of a `dia_semana` cell: position in `ORDEN_DIAS`,
with `NaN` (and hence every out-of-category value, already mapped to `NaN` by
`categorize`) ranked after all six categories, as `na_position="last"` does. -/
def dayRank (v : Option String) : Nat :=
  match v with
  | some d => ORDEN_DIAS.indexOf d
  | none => ORDEN_DIAS.length

/-- Sort-key fragment of an optional time column, absent values last. -/
def timeKeyParts (v : Option Time) : List Nat :=
  match v with
  | some t => [0, t]
  | none => [1, 0]

/-- The `sort_values(["dia_semana", "h_inicio", "h_fin"])` key of drill-down. -/
def drillKey (r : CubeRow) : List Nat :=
  dayRank r.dia_semana :: (timeKeyParts r.h_inicio ++ timeKeyParts r.h_fin)

/-- Tag each element with its position, starting at `n`. -/
def tagIdxFrom (n : Nat) : List α → List (α × Nat)
  | [] => []
  | a :: rest => (a, n) :: tagIdxFrom (n + 1) rest

/-- Multi-key `sort_values` (pandas lexsort, which is stable): sort the rows
tagged with their original position, breaking full-key ties by that position.
The tagged output is kept so that stability is statable. -/
def sortIdxBy (key : α → List Nat) (xs : List α) : List (α × Nat) :=
  sortByLe (fun p q => lexLe (key p.1 ++ [p.2]) (key q.1 ++ [q.2]))
    (tagIdxFrom 0 xs)

/-- The `df["dia_semana"] = pd.Categorical(df["dia_semana"], ...)` column
assignment performed by `drilldown_docente_dia_hora` on its working frame. -/
def recatRow (r : CubeRow) : CubeRow := { r with dia_semana := categorize r.dia_semana }

/-- Drill-down ordering applied to an explicit row subset: re-bind the day
categorical and stable-sort by (day, start, end). -/
def drilldown_sort (df : List CubeRow) : List CubeRow :=
  (sortIdxBy drillKey (df.map recatRow)).map Prod.fst

/-- The cube object state: the denormalized view owned by `Horario_cubo`. -/
structure CuboState where
  cubo : List CubeRow
deriving DecidableEq, Repr

/-- Model of `Horario_cubo.drilldown_docente_dia_hora`.  With `df_in=None` the
working frame IS `self.cubo` (no copy), so the categorical column assignment
writes through to the cube state before the sorted copy is returned; with an
explicit frame the method works on `df_in.copy()` and the state is untouched. -/
def drilldown_docente_dia_hora (st : CuboState) (dfIn : Option (List CubeRow)) :
    List CubeRow × CuboState :=
  match dfIn with
  | none =>
    let df := st.cubo.map recatRow
    ((sortIdxBy drillKey df).map Prod.fst, ⟨df⟩)
  | some d => (drilldown_sort d, st)

/-- ASCII lowering of a string (`case=False` handling of `str.contains`). -/
def toLowerStr (s : String) : String := ⟨s.toList.map Char.toLower⟩

/-- Prefix test on character lists. -/
def startsWithChars : List Char → List Char → Bool
  | _, [] => true
  | [], _ :: _ => false
  | h :: hs, n :: ns => h == n && startsWithChars hs ns

/-- Substring test on character lists (Python `needle in hay`). -/
def hasSubstr (needle : List Char) : List Char → Bool
  | [] => startsWithChars [] needle
  | c :: rest => startsWithChars (c :: rest) needle || hasSubstr needle rest

/-- Case-insensitive substring containment (`str.contains(_, case=False)`). -/
def containsCI (hay needle : String) : Bool :=
  hasSubstr (toLowerStr needle).toList (toLowerStr hay).toList

/-- `df[col].str.contains(needle, case=False, na=False)` on one cell. -/
def valContainsCI (v : Val) (needle : String) : Bool :=
  match v with
  | some s => containsCI s needle
  | none => false

/-- Token of a compiled regular expression within the modelled fragment: a
literal character or the `.` any-character wildcard. -/
inductive RTok where
  | lit (c : Char)
  | any
deriving DecidableEq, Repr

/-- Regex metacharacters whose behaviour the embedding does not model
(quantifiers, anchors, classes, braces, a closing parenthesis, alternation,
escapes).  A pattern containing one of these is outside the modelled
fragment. -/
def RE_UNMODELLED : List Char :=
  ['^', '$', '*', '+', '?', '\x7b', '\x7d', '[', ']', ')', '|', '\\']

/-- Model of `re.compile(pat, re.IGNORECASE)` as invoked by pandas
`str.contains(pat, case=False)`, whose default is `regex=True`.  On the
modelled pattern fragment — ordinary characters, the `.` wildcard, and `(` —
ordinary characters compile to literals, `.` to the wildcard, and a pattern
holding a `(` (which, with every other metacharacter excluded, can never be
closed by a `)`) is an unterminated group: `re.compile` raises `re.error`.
Patterns holding any other metacharacter are reported as outside the model
rather than given a guessed semantics. -/
def reCompileCI (pat : String) : Except String (List RTok) :=
  if pat.toList.any (fun c => RE_UNMODELLED.contains c) then
    .error "unmodelled pattern"
  else if pat.toList.any (fun c => c == '(') then .error "re.error"
  else .ok (pat.toList.map (fun c => if c == '.' then RTok.any else RTok.lit c))

/-- One-token match under `re.IGNORECASE` (ASCII lowering, as `case=False`
lowers): `.` matches every character except the newline. -/
def rtokMatches : RTok → Char → Bool
  | .lit c, d => c.toLower == d.toLower
  | .any, d => d != '\n'

/-- Anchored match of a compiled pattern at the head of the text. -/
def reMatchAt : List RTok → List Char → Bool
  | [], _ => true
  | _ :: _, [] => false
  | t :: ts, c :: cs => rtokMatches t c && reMatchAt ts cs

/-- `re.search`: the compiled pattern matches at some position of the text. -/
def reSearchList (ts : List RTok) : List Char → Bool
  | [] => reMatchAt ts []
  | c :: rest => reMatchAt ts (c :: rest) || reSearchList ts rest

/-- Shape guard of the modelled `pd.to_datetime` string fragment: the sentinel
strings and the colon-separated time-of-day shapes `H:MM`, `HH:MM`, `HH:MM:SS`
with all-digit parts (range overflows such as `"25:00"` stay inside the
fragment and coerce to `NaT`).  Only on these strings does the embedding
commit to the parsing behaviour; outside them `pd.to_datetime` accepts more
than the model (e.g. `"8am"`, calendar dates). -/
def hourShape (s : String) : Bool :=
  s == "" || s == "NaT" || s == "None" ||
  (match splitOnChar ':' s.toList with
   | [h, m] => (1 ≤ h.length && h.length ≤ 2) && m.length == 2
       && (h ++ m).all Char.isDigit
   | [h, m, sec] => (1 ≤ h.length && h.length ≤ 2) && m.length == 2
       && sec.length == 2 && (h ++ m ++ sec).all Char.isDigit
   | _ => false)

/-- Three-way comparison of naturals. -/
def cmpNat (a b : Nat) : Ordering := if a < b then .lt else if b < a then .gt else .eq

/-- Three-way comparison of strings (code-point lexicographic, as Python). -/
def cmpStr (a b : String) : Ordering := if a < b then .lt else if b < a then .gt else .eq

/-- Object-column comparison with `NaN` placed last (`na_position="last"`). -/
def cmpValNaLast (a b : Val) : Ordering :=
  match a, b with
  | none, none => .eq
  | none, some _ => .gt
  | some _, none => .lt
  | some x, some y => cmpStr x y

/-- Optional-time comparison with `NaN` placed last. -/
def cmpTimeNaLast (a b : Option Time) : Ordering :=
  match a, b with
  | none, none => .eq
  | none, some _ => .gt
  | some _, none => .lt
  | some x, some y => cmpNat x y

/-- Boolean `≤` from a three-way comparison. -/
def leOfCmp (o : Ordering) : Bool :=
  match o with
  | .gt => false
  | _ => true

/-- Columns kept by `slice_por_docente`. -/
structure SliceProj where
  nombreCompleto : Val
  dia_semana : Option String
  h_inicio : Option Time
  h_fin : Option Time
  nombreMateria : Val
  clave : Val
  codigo_salon : Val
  edificio : Val
  aula : Val
deriving DecidableEq, Repr

/-- Column projection of `slice_por_docente`. -/
def sliceProjOf (r : CubeRow) : SliceProj :=
  ⟨r.nombreCompleto, r.dia_semana, r.h_inicio, r.h_fin, r.nombreMateria,
    r.clave, r.codigo_salon, r.edificio, r.aula⟩

/-- Model of `Horario_cubo.slice_por_docente`: case-insensitive substring
filter on the instructor name (absent names never match, `na=False`), drill
down on the filtered copy, project.  The state is read but never written. -/
def slice_por_docente (st : CuboState) (texto : String) : List SliceProj × CuboState :=
  let df := st.cubo.filter (fun r => valContainsCI r.nombreCompleto texto)
  if df = [] then ([], st)
  else ((drilldown_sort df).map sliceProjOf, st)

/-- Columns kept by `dice_por_materia`. -/
structure MatProj where
  clave : Val
  nombreMateria : Val
  nombreCompleto : Val
deriving DecidableEq, Repr

/-- Sort key of `dice_por_materia`: `sort_values(["clave", "nombreCompleto"])`. -/
def matLe (a b : MatProj) : Bool :=
  leOfCmp ((cmpValNaLast a.clave b.clave).then (cmpValNaLast a.nombreCompleto b.nombreCompleto))

/-- Model of `Horario_cubo.dice_por_materia`: OR of case-insensitive substring
matches on subject name and subject code, distinct projected triples, sorted. -/
def dice_por_materia (st : CuboState) (q : String) : List MatProj × CuboState :=
  let df := st.cubo.filter (fun r => valContainsCI r.nombreMateria q || valContainsCI r.clave q)
  if df = [] then ([], st)
  else
    (sortByLe matLe (dedupFirst (df.map (fun r => MatProj.mk r.clave r.nombreMateria r.nombreCompleto))), st)

/-- Columns kept by `dice_en_edificio_hora`. -/
structure DiceProj where
  nombreCompleto : Val
  nombreMateria : Val
  clave : Val
  codigo_salon : Val
  dia_semana : Option String
  h_inicio : Option Time
  h_fin : Option Time
deriving DecidableEq, Repr

/-- Column projection of `dice_en_edificio_hora`. -/
def diceProjOf (r : CubeRow) : DiceProj :=
  ⟨r.nombreCompleto, r.nombreMateria, r.clave, r.codigo_salon,
    r.dia_semana, r.h_inicio, r.h_fin⟩

/-- Sort key of `dice_en_edificio_hora`:
`sort_values(["dia_semana", "h_inicio", "nombreCompleto"])`. -/
def diceLe (a b : DiceProj) : Bool :=
  leOfCmp (((cmpNat (dayRank a.dia_semana) (dayRank b.dia_semana)).then
    (cmpTimeNaLast a.h_inicio b.h_inicio)).then
    (cmpValNaLast a.nombreCompleto b.nombreCompleto))

/-- The row filter of `dice_en_edificio_hora` for compiled building pattern
`ts` and reference time `t`: rows surviving
`dropna(subset=["h_inicio", "h_fin"])` whose stringified building the pattern
matches at some position (case-insensitively) and whose closed interval
`[h_inicio, h_fin]` contains `t`. -/
def diceCond (ts : List RTok) (t : Time) (r : CubeRow) : Bool :=
  r.h_inicio.isSome && r.h_fin.isSome &&
  reSearchList ts (pyStr r.edificio).toList &&
  r.h_inicio.getD 0 ≤ t && t ≤ r.h_fin.getD 0

/-- Model of `Horario_cubo.dice_en_edificio_hora`: coerce the hour string with
`_to_time_safe` (empty result when it coerces to `None`, before the pattern is
ever looked at), compile the building argument as a case-insensitive regular
expression — `str.contains` defaults to `regex=True`, so an ill-formed pattern
raises `re.error` out of the method — then filter, project, deduplicate, sort.
The state is read but never written. -/
def dice_en_edificio_hora (st : CuboState) (edificio : String) (horaStr : String) :
    Except String (List DiceProj) × CuboState :=
  match to_time_safe (PyTimeVal.str horaStr) with
  | .error e => (.error e, st)
  | .ok none => (.ok [], st)
  | .ok (some t) =>
    match reCompileCI edificio with
    | .error e => (.error e, st)
    | .ok ts =>
      let df := st.cubo.filter (diceCond ts t)
      if df = [] then (.ok [], st)
      else (.ok (sortByLe diceLe (dedupFirst (df.map diceProjOf))), st)

/-- One output row of `rollup_horas_por_docente`: instructor, total minutes,
and total hours rounded to two decimals (represented exactly in hundredths:
`minutes * 5 / 3` never falls on a rounding tie). -/
structure RollupRow where
  nombre : Val
  minutos_totales : Nat
  horas_cent : Nat
deriving DecidableEq, Repr

/-- Model of `Horario_cubo.rollup_horas_por_docente`: group by instructor
(`dropna=False`, so the absent-name group is kept), sum the durations (absent
durations are skipped by pandas `sum`, i.e. contribute zero), convert to
rounded hours, sort by descending hours. -/
def rollup_horas_por_docente (st : CuboState) : List RollupRow × CuboState :=
  let names := dedupFirst (st.cubo.map (fun r => r.nombreCompleto))
  let rows := names.map (fun n =>
    let mins := ((st.cubo.filter (fun r => r.nombreCompleto == n)).map
      (fun r => r.duracion_min.getD 0)).sum
    RollupRow.mk n mins ((mins * 10 + 3) / 6))
  (sortByLe (fun a b => b.horas_cent ≤ a.horas_cent) rows, st)

/-- String ascending order used for the pivot row index. -/
def strLe (a b : String) : Bool := leOfCmp (cmpStr a b)

/-- Model of `Horario_cubo.pivot_docente_por_dia` as a function of the view:
`pivot_table(values="nrc", index="nombreCompleto", columns="dia_semana",
aggfunc="count", fill_value=0)` groups on (name, day) dropping rows whose name
or day is `NaN`, counts non-absent `nrc` cells per group, reindexes the day
columns to exactly `ORDEN_DIAS` (missing days zero-filled), and appends the
row-wise `Total` column.  Each output entry is
(instructor, the six day counts in `ORDEN_DIAS` order, total). -/
def pivotTable (cubo : List CubeRow) : List (String × List Nat × Nat) :=
  let rows := cubo.filter (fun r => r.nombreCompleto.isSome && r.dia_semana.isSome)
  let names := sortByLe strLe (dedupFirst (rows.filterMap (fun r => r.nombreCompleto)))
  names.map (fun n =>
    let cells := ORDEN_DIAS.map (fun d =>
      (rows.filter (fun r =>
        r.nombreCompleto == some n && r.dia_semana == some d && r.nrc.isSome)).length)
    (n, cells, cells.sum))

/-- Model of `Horario_cubo.pivot_docente_por_dia` as a state operation. -/
def pivot_docente_por_dia (st : CuboState) : List (String × List Nat × Nat) × CuboState :=
  (pivotTable st.cubo, st)

/-- Python `str.split()` with no argument: split on whitespace runs, no empty
tokens. -/
def splitWsTokens (s : String) : List String :=
  (s.split (fun c => isWs c)).filter (fun t => t ≠ "")

/-- The `format_docente_display` helper of `cubo.Horario_cubo.h_docente`. -/
def format_docente_display (v : Val) : Val :=
  match v with
  | none => none
  | some x =>
    if stripChars x.toList = [] then some x
    else
      match splitWsTokens x with
      | ap1 :: ap2 :: resto =>
        if resto = [] then some x
        else
          let nombres := String.intercalate " " resto
          let apellidos := if toLowerStr ap1 = toLowerStr ap2 then ap1 else ap1 ++ " " ++ ap2
          some ⟨stripChars (nombres ++ " " ++ apellidos).toList⟩
      | _ => some x

/-- Columns kept by `cubo.Horario_cubo.h_docente` that exist in the view (its
column list names `nombre_materia`, which the view does not carry, so that
entry is dropped by the `c in df.columns` guard). -/
structure HDocProj where
  nombreCompleto : Val
  dia_semana : Option String
  h_inicio : Option Time
  h_fin : Option Time
  clave : Val
  codigo_salon : Val
  edificio : Val
  aula : Val
deriving DecidableEq, Repr

/-- The `sort_values(["dia_semana", "h_inicio"])` key of `h_docente`. -/
def hDocKey (r : CubeRow) : List Nat := dayRank r.dia_semana :: timeKeyParts r.h_inicio

/-- Model of `cubo.Horario_cubo.h_docente`: boolean-mask indexing yields a new
frame (a copy), so the two column assignments performed on it never reach
`self.cubo`; the copy is day-categorized, display-formatted, sorted and
projected. -/
def h_docente (st : CuboState) (nombreDocente : String) : List HDocProj × CuboState :=
  let df := st.cubo.filter (fun r => valContainsCI r.nombreCompleto nombreDocente)
  if df = [] then ([], st)
  else
    let df2 := df.map (fun r =>
      { r with
        dia_semana := categorize r.dia_semana
        nombreCompleto := format_docente_display r.nombreCompleto })
    (((sortIdxBy hDocKey df2).map Prod.fst).map (fun r =>
      HDocProj.mk r.nombreCompleto r.dia_semana r.h_inicio r.h_fin r.clave
        r.codigo_salon r.edificio r.aula), st)

/-- Rebuild the denormalized cube view from a star schema, as
`Horario_cubo.__init__` does on the loaded tables. -/
def cubo_of_schema (s : StarSchema) : List CubeRow :=
  Horario_cubo_init s.hechos s.dim_docente s.dim_materia s.dim_espacio s.dim_tiempo

/-- The specification's scenario fact — interval [07:00, 08:30] in building
`1CCO4` — built end-to-end from one raw Monday row. -/
def scenarioCubo : CuboState :=
  match transform_all [⟨some "12345", some "ICC101", some "Algoritmos", some "L",
      some "07:00-08:30", some "GARCIA LOPEZ JUAN", some "1CCO4/203"⟩] with
  | .ok s => ⟨cubo_of_schema s⟩
  | .error _ => ⟨[]⟩

/-- A concrete cube row (instructor `A`, Monday, session `111`) used for the
pivot instance checks. -/
def pivotRowA : CubeRow :=
  ⟨some 1, some 1, some 1, some 1, some "111", some "L", some 60, some "A", some "K1",
    some "Mat", some "E", some "1", some "E/1", some "L", some "Lunes", some 25200, some 28800⟩

/-- Concrete rows whose day value `"Domingo"` lies outside the category list,
with different start times, for the drill-down instance checks. -/
def domingoRow1 : CubeRow :=
  ⟨none, none, none, none, some "1", none, none, some "P", none, none, none, none,
    none, some "D", some "Domingo", some 36000, some 39600⟩

/-- Second out-of-category row, earlier start time than `domingoRow1`. -/
def domingoRow2 : CubeRow :=
  ⟨none, none, none, none, some "2", none, none, some "P", none, none, none, none,
    none, some "D", some "Domingo", some 32400, some 36000⟩

/-- A Tuesday row for the drill-down witness. -/
def martesRow : CubeRow :=
  ⟨none, none, none, none, some "3", none, none, some "Q", none, none, none, none,
    none, some "A", some "Martes", some 25200, some 28800⟩

/-- A Monday row for the drill-down witness. -/
def lunesRow : CubeRow :=
  ⟨none, none, none, none, some "4", none, none, some "Q", none, none, none, none,
    none, some "L", some "Lunes", some 25200, some 28800⟩

/-- A raw Saturday row: its curated day name `"Sábado"` (accented, from
`DIA_MAP`) is not among the cube's categories (`"Sabado"`, unaccented). -/
def sabadoRaw : RawRow :=
  ⟨some "222", some "ICC102", some "Redes", some "S", some "10:00-11:00",
    some "PEREZ RUIZ ANA", some "1CCO4/101"⟩

/-- A raw Monday row used for the round-trip witness. -/
def c1Raw : RawRow :=
  ⟨some "12345", some "ICC101", some "Algoritmos", some "L", some "07:00-08:30",
    some "GARCIA LOPEZ JUAN", some "1CCO4/203"⟩

/-! ### Generic lemmas about the modelled pandas primitives -/

theorem mem_dedupFirstAux [DecidableEq κ] :
    ∀ (xs seen : List κ) (a : κ), a ∈ dedupFirstAux seen xs ↔ a ∈ xs ∧ a ∉ seen
  | [], seen, a => by simp [dedupFirstAux]
  | b :: rest, seen, a => by
    rw [dedupFirstAux]
    by_cases hb : b ∈ seen
    · rw [if_pos hb, mem_dedupFirstAux]
      constructor
      · rintro ⟨h1, h2⟩
        exact ⟨List.mem_cons_of_mem _ h1, h2⟩
      · rintro ⟨h1, h2⟩
        rcases List.mem_cons.mp h1 with h3 | h3
        · subst h3; exact absurd hb h2
        · exact ⟨h3, h2⟩
    · rw [if_neg hb]
      simp only [List.mem_cons, mem_dedupFirstAux]
      constructor
      · rintro (h | ⟨h1, h2⟩)
        · subst h; exact ⟨Or.inl rfl, hb⟩
        · simp only [List.mem_cons, not_or] at h2
          exact ⟨Or.inr h1, h2.2⟩
      · rintro ⟨h1 | h1, h2⟩
        · exact Or.inl h1
        · by_cases hab : a = b
          · exact Or.inl hab
          · exact Or.inr ⟨h1, by simp [hab, h2]⟩

theorem mem_dedupFirst [DecidableEq κ] (xs : List κ) (a : κ) :
    a ∈ dedupFirst xs ↔ a ∈ xs := by
  rw [dedupFirst, mem_dedupFirstAux]
  simp

theorem nodup_dedupFirstAux [DecidableEq κ] :
    ∀ (xs seen : List κ), (dedupFirstAux seen xs).Nodup
  | [], seen => by simp [dedupFirstAux]
  | b :: rest, seen => by
    rw [dedupFirstAux]
    by_cases hb : b ∈ seen
    · rw [if_pos hb]
      exact nodup_dedupFirstAux rest seen
    · rw [if_neg hb]
      refine List.nodup_cons.mpr ⟨?_, nodup_dedupFirstAux rest (b :: seen)⟩
      intro hmem
      have h2 := ((mem_dedupFirstAux rest (b :: seen) b).mp hmem).2
      simp at h2

theorem nodup_dedupFirst [DecidableEq κ] (xs : List κ) : (dedupFirst xs).Nodup :=
  nodup_dedupFirstAux xs []

theorem numberFrom_bound {n : Nat} : ∀ {xs : List κ} {p : Nat × κ}, p ∈ numberFrom n xs → n ≤ p.1
  | [], p => by simp [numberFrom]
  | a :: rest, p => by
    simp only [numberFrom, List.mem_cons]
    rintro (h | h)
    · subst h; exact Nat.le_refl n
    · exact Nat.le_of_succ_le (numberFrom_bound h)

theorem numberFrom_snd_mem {n : Nat} : ∀ {xs : List κ} {p : Nat × κ}, p ∈ numberFrom n xs → p.2 ∈ xs
  | [], p => by simp [numberFrom]
  | a :: rest, p => by
    simp only [numberFrom, List.mem_cons]
    rintro (h | h)
    · subst h; exact Or.inl rfl
    · exact Or.inr (numberFrom_snd_mem h)

/-- Every key of the deduplicated input appears in the numbered dimension. -/
theorem numberFrom_mem_snd {n : Nat} : ∀ {xs : List κ} {a : κ}, a ∈ xs →
    ∃ p, p ∈ numberFrom n xs ∧ p.2 = a
  | [], a => by simp
  | b :: rest, a => by
    simp only [List.mem_cons, numberFrom]
    rintro (h | h)
    · exact ⟨(n, b), Or.inl rfl, h.symm⟩
    · obtain ⟨p, hp, hpa⟩ := numberFrom_mem_snd h
      exact ⟨p, Or.inr hp, hpa⟩

/-- Looking a dimension row's own id back up finds exactly that row. -/
theorem numberFrom_find_id {n : Nat} : ∀ {xs : List κ} {p : Nat × κ}, p ∈ numberFrom n xs →
    (numberFrom n xs).find? (fun q => q.1 == p.1) = some p
  | [], p => by simp [numberFrom]
  | a :: rest, p => by
    simp only [numberFrom, List.mem_cons]
    rintro (h | h)
    · subst h; simp [List.find?]
    · have hgt : n + 1 ≤ p.1 := numberFrom_bound h
      have hne : (n == p.1) = false := by
        simp only [beq_eq_false_iff_ne, ne_eq]
        omega
      simp only [List.find?, hne]
      exact numberFrom_find_id h

theorem insertLe_perm (le : α → α → Bool) (x : α) :
    ∀ (xs : List α), (insertLe le x xs).Perm (x :: xs)
  | [] => by simp [insertLe]
  | y :: rest => by
    rw [insertLe]
    by_cases h : le y x = true
    · simp only [h, if_true]
      exact ((insertLe_perm le x rest).cons y).trans (List.Perm.swap x y rest)
    · simp [h]

theorem foldl_insertLe_perm (le : α → α → Bool) :
    ∀ (xs acc : List α), (xs.foldl (fun a x => insertLe le x a) acc).Perm (acc ++ xs)
  | [], acc => by simp
  | x :: rest, acc => by
    simp only [List.foldl_cons]
    refine (foldl_insertLe_perm le rest (insertLe le x acc)).trans ?_
    refine (List.Perm.append_right rest ((insertLe_perm le x acc))).trans ?_
    simpa using List.perm_middle.symm

theorem sortByLe_perm (le : α → α → Bool) (xs : List α) : (sortByLe le xs).Perm xs := by
  simpa [sortByLe] using foldl_insertLe_perm le xs []

theorem mem_sortByLe {le : α → α → Bool} {xs : List α} {a : α} :
    a ∈ sortByLe le xs ↔ a ∈ xs :=
  (sortByLe_perm le xs).mem_iff

/-! ### C2 — the time-range parser -/

/-- Exact minute form of the second difference used by `parse_hora`. -/
theorem mkTime_sub_ediv (h1 m1 h2 m2 : Nat) :
    ((mkTime h2 m2 : Int) - (mkTime h1 m1 : Int)) / 60
      = (h2 * 60 + m2 : Int) - (h1 * 60 + m1 : Int) := by
  unfold mkTime
  push_cast
  omega

/-- C2: for every input to the time-range parser: a string matching
`H{1,2}[:]?MM-H{1,2}[:]?MM` (hyphen or en-dash) after whitespace stripping,
with both endpoints valid times (hour ≤ 23, minute ≤ 59) and end strictly
after start, yields the start time, the end time, and a whole-minute duration
equal to end minus start; every other input yields all three fields absent;
and no input ever yields a partial triple. -/
theorem C2_theorem :
    (∀ (s : String) (h1 m1 h2 m2 : Nat),
      matchRango (stripAllWs s).toList = some (h1, m1, h2, m2) →
      h1 ≤ 23 → m1 ≤ 59 → h2 ≤ 23 → m2 ≤ 59 → h1 * 60 + m1 < h2 * 60 + m2 →
      parse_hora (some s) =
        (some (mkTime h1 m1), some (mkTime h2 m2),
          some (h2 * 60 + m2 - (h1 * 60 + m1)))) ∧
    (∀ v : Val,
      (¬ ∃ s h1 m1 h2 m2, v = some s ∧
        matchRango (stripAllWs s).toList = some (h1, m1, h2, m2) ∧
        h1 ≤ 23 ∧ m1 ≤ 59 ∧ h2 ≤ 23 ∧ m2 ≤ 59 ∧ h1 * 60 + m1 < h2 * 60 + m2) →
      parse_hora v = (none, none, none)) ∧
    (∀ v : Val, (∃ a b d, parse_hora v = (some a, some b, some d) ∧ 0 < d) ∨
      parse_hora v = (none, none, none)) := by
  have hpos : ∀ (s : String) (h1 m1 h2 m2 : Nat),
      matchRango (stripAllWs s).toList = some (h1, m1, h2, m2) →
      h1 ≤ 23 → m1 ≤ 59 → h2 ≤ 23 → m2 ≤ 59 → h1 * 60 + m1 < h2 * 60 + m2 →
      parse_hora (some s) =
        (some (mkTime h1 m1), some (mkTime h2 m2),
          some (h2 * 60 + m2 - (h1 * 60 + m1))) := by
    intro s h1 m1 h2 m2 hm hb1 hb2 hb3 hb4 hlt
    simp only [parse_hora, hm]
    have hcond : (h1 ≤ 23 && m1 ≤ 59 && h2 ≤ 23 && m2 ≤ 59) = true := by
      simp [hb1, hb2, hb3, hb4]
    rw [if_pos hcond]
    have hd := mkTime_sub_ediv h1 m1 h2 m2
    simp only [hd]
    have hnot : ¬ ((h2 * 60 + m2 : Int) - (h1 * 60 + m1 : Int) ≤ 0) := by
      omega
    rw [if_neg hnot]
    have : ((h2 * 60 + m2 : Int) - (h1 * 60 + m1 : Int)).toNat
        = h2 * 60 + m2 - (h1 * 60 + m1) := by
      omega
    rw [this]
  have hneg : ∀ v : Val,
      (¬ ∃ s h1 m1 h2 m2, v = some s ∧
        matchRango (stripAllWs s).toList = some (h1, m1, h2, m2) ∧
        h1 ≤ 23 ∧ m1 ≤ 59 ∧ h2 ≤ 23 ∧ m2 ≤ 59 ∧ h1 * 60 + m1 < h2 * 60 + m2) →
      parse_hora v = (none, none, none) := by
    intro v hnone
    match v with
    | none => rfl
    | some s =>
      rcases hm : matchRango (stripAllWs s).toList with _ | ⟨h1, m1, h2, m2⟩
      · simp only [parse_hora, hm]
      · simp only [parse_hora, hm]
        by_cases hcond : (h1 ≤ 23 && m1 ≤ 59 && h2 ≤ 23 && m2 ≤ 59) = true
        · rw [if_pos hcond]
          simp only [Bool.and_eq_true, decide_eq_true_eq] at hcond
          obtain ⟨⟨⟨hb1, hb2⟩, hb3⟩, hb4⟩ := hcond
          have hnlt : ¬ (h1 * 60 + m1 < h2 * 60 + m2) := by
            intro hlt
            exact hnone ⟨s, h1, m1, h2, m2, rfl, hm, hb1, hb2, hb3, hb4, hlt⟩
          have hle : ((mkTime h2 m2 : Int) - (mkTime h1 m1 : Int)) / 60 ≤ 0 := by
            rw [mkTime_sub_ediv]
            omega
          rw [if_pos hle]
        · rw [if_neg hcond]
  refine ⟨hpos, hneg, ?_⟩
  intro v
  by_cases hex : ∃ s h1 m1 h2 m2, v = some s ∧
      matchRango (stripAllWs s).toList = some (h1, m1, h2, m2) ∧
      h1 ≤ 23 ∧ m1 ≤ 59 ∧ h2 ≤ 23 ∧ m2 ≤ 59 ∧ h1 * 60 + m1 < h2 * 60 + m2
  · obtain ⟨s, h1, m1, h2, m2, hv, hm, hb1, hb2, hb3, hb4, hlt⟩ := hex
    subst hv
    refine Or.inl ⟨mkTime h1 m1, mkTime h2 m2, h2 * 60 + m2 - (h1 * 60 + m1),
      hpos s h1 m1 h2 m2 hm hb1 hb2 hb3 hb4 hlt, by omega⟩
  · exact Or.inr (hneg v hex)

/-- C2 witness at the concrete range `"07:00-08:30"`. -/
theorem C2_witness :
    parse_hora (some "07:00-08:30") = (some 25200, some 30600, some 90) := by
  have h := C2_theorem.1 "07:00-08:30" 7 0 8 30 (by decide)
    (by decide) (by decide) (by decide) (by decide) (by decide)
  simpa [mkTime] using h

/-! ### C3 / C10 — the day expander -/

/-- C3 (amended: tokens are taken from the day field's string form after
removing space characters, which is what `str(row["días"]).replace(" ", "")`
produces): the expander emits exactly one output row per token (split on
commas when a comma is present, otherwise one token per character), sets
`dia_codigo` to the token and `dia_semana` to its image under the fixed
code→name table with unrecognized tokens passed through unchanged, and copies
every other field of the source row unchanged to every expanded row. -/
theorem C3_theorem (rows : List ParsedRow) (row : ParsedRow) :
    explotar_por_dia rows = (rows.map explodeRow).flatten ∧
    (explodeRow row).map (fun e => e.dia_codigo)
      = diaTokens (dropSpaces (pyStr row.dias)) ∧
    (explodeRow row).length = (diaTokens (dropSpaces (pyStr row.dias))).length ∧
    (∀ e ∈ explodeRow row, e.dia_semana = DIA_MAP e.dia_codigo ∧ e.toParsedRow = row) ∧
    DIA_MAP "L" = "Lunes" ∧ DIA_MAP "A" = "Martes" ∧ DIA_MAP "M" = "Miercoles" ∧
    DIA_MAP "J" = "Jueves" ∧ DIA_MAP "V" = "Viernes" ∧ DIA_MAP "S" = "Sábado" ∧
    (∀ d : String, d ∉ (["L", "A", "M", "J", "V", "S"] : List String) → DIA_MAP d = d) := by
  refine ⟨?_, ?_, ?_, ?_, rfl, rfl, rfl, rfl, rfl, rfl, ?_⟩
  · induction rows with
    | nil => rfl
    | cons r rest ih => simp [explotar_por_dia, ih]
  · unfold explodeRow
    rw [List.map_map]
    have hcomp : ((fun (e : ExpRow) => e.dia_codigo) ∘ fun d =>
        ({ toParsedRow := row, dia_codigo := d, dia_semana := DIA_MAP d } : ExpRow)) = id := rfl
    rw [hcomp, List.map_id]
  · simp [explodeRow]
  · intro e he
    simp only [explodeRow, List.mem_map] at he
    obtain ⟨d, _, he⟩ := he
    subst he
    exact ⟨rfl, rfl⟩
  · intro d hd
    simp only [List.mem_cons, List.mem_singleton, not_or] at hd
    obtain ⟨h1, h2, h3, h4, h5, h6⟩ := hd
    simp [DIA_MAP, h1, h2, h3, h4, h5, h6]

/-- C3 counterexample to the claim as stated: for the day-code string
`"L, M"` the claim's tokenization of the code itself yields the tokens
`["L", " M"]`, whose second token is unrecognized and would have to be passed
through unchanged as both `dia_codigo` and `dia_semana`; the expander instead
removes spaces first and emits `("M", "Miercoles")` for the second row. -/
theorem C3_counterexample :
    diaTokens "L, M" = ["L", " M"] ∧
    (explodeRow (⟨⟨some "1", some "A", some "X", some "L, M", none, none, none⟩,
        none, none, none⟩ : ParsedRow)).map
      (fun e => (e.dia_codigo, e.dia_semana)) = [("L", "Lunes"), ("M", "Miercoles")] :=
  ⟨rfl, rfl⟩

/-- C3 witness: the amended theorem applied to the `"LMV"` scenario row. -/
theorem C3_witness :
    (explodeRow (⟨⟨some "12345", some "ICC101", some "Algoritmos", some "LMV",
        none, none, none⟩, none, none, none⟩ : ParsedRow)).map
      (fun e => e.dia_codigo) = ["L", "M", "V"] := by
  have h := (C3_theorem [] (⟨⟨some "12345", some "ICC101", some "Algoritmos",
    some "LMV", none, none, none⟩, none, none, none⟩ : ParsedRow)).2.1
  rw [h]
  rfl

/-- C10 (amended: "whitespace" must be read as the space character, the only
character removed by `str.replace(" ", "")`): a row whose day field is empty
or consists only of spaces expands to zero rows and contributes nothing to the
curated set — no error, no placeholder row. -/
theorem C10_theorem (row : ParsedRow) (s : String)
    (hdias : row.dias = some s) (hsp : ∀ c ∈ s.toList, c = ' ') :
    explodeRow row = [] ∧
    ∀ rest : List ParsedRow, explotar_por_dia (row :: rest) = explotar_por_dia rest := by
  have hde : dropSpaces (pyStr row.dias) = "" := by
    rw [hdias]
    show String.mk (s.toList.filter (fun c => c != ' ')) = ""
    have : s.toList.filter (fun c => c != ' ') = [] := by
      rw [List.filter_eq_nil_iff]
      intro c hc
      simp [hsp c hc]
    rw [this]
  have hrow : explodeRow row = [] := by
    have hdt : diaTokens "" = [] := rfl
    unfold explodeRow
    rw [hde, hdt]
    rfl
  exact ⟨hrow, fun rest => by simp [explotar_por_dia, hrow]⟩

/-- C10 counterexample to the claim as stated: a day field consisting only of
the whitespace character TAB is not removed — it expands to exactly one row
(with the tab passed through as an unrecognized day token), not zero. -/
theorem C10_counterexample :
    ("\t".toList.all (fun c => isWs c)) = true ∧
    (explotar_por_dia [(⟨⟨none, none, none, some "\t", none, none, none⟩,
        none, none, none⟩ : ParsedRow)]).length = 1 :=
  ⟨rfl, rfl⟩

/-- C10 witness: the amended theorem applied to a spaces-only day field. -/
theorem C10_witness :
    explodeRow (⟨⟨none, none, none, some "  ", none, none, none⟩,
        none, none, none⟩ : ParsedRow) = [] ∧
    explotar_por_dia [(⟨⟨none, none, none, some "  ", none, none, none⟩,
        none, none, none⟩ : ParsedRow)] = explotar_por_dia [] := by
  have h := C10_theorem (⟨⟨none, none, none, some "  ", none, none, none⟩,
    none, none, none⟩ : ParsedRow) "  " rfl (by decide)
  exact ⟨h.1, h.2 []⟩

/-! ### C8 — the time coercion of the cube builder -/

/-- C8 (amended: a duration-since-midnight input must lie in `[0, 24h)`;
outside that range the `datetime.time(h, m, s)` call sits outside the `try`
and raises `ValueError`): under that proviso the coercion never raises, maps
`None`/`NaN`/sentinel-empty inputs to absent, passes time values through,
converts an in-range duration to the time of day that many seconds after
midnight, and string-parses everything else with parse failures coerced to
absent. -/
theorem C8_theorem (v : PyTimeVal)
    (hdur : ∀ secs : Int, v = .timedelta secs → 0 ≤ secs ∧ secs < 86400) :
    (∃ r, to_time_safe v = .ok r) ∧
    (v = .pynone → to_time_safe v = .ok none) ∧
    (∀ t, v = .time t → to_time_safe v = .ok (some t)) ∧
    (∀ secs, v = .timedelta secs → to_time_safe v = .ok (some secs.toNat)) ∧
    (∀ s, v = .str s → (s = "" ∨ s = "NaT" ∨ s = "None") → to_time_safe v = .ok none) ∧
    (∀ s, v = .str s → ¬(s = "" ∨ s = "NaT" ∨ s = "None") →
      to_time_safe v = .ok (pdToDatetimeTime s)) := by
  have htd : ∀ secs : Int, v = .timedelta secs → to_time_safe v = .ok (some secs.toNat) := by
    intro secs hv
    obtain ⟨h0, h1⟩ := hdur secs hv
    subst hv
    have hfd : secs.fdiv 3600 = secs / 3600 := Int.fdiv_eq_ediv _ (by omega)
    have hfm : secs.fmod 3600 = secs % 3600 := Int.fmod_eq_emod _ (by omega)
    have hfd2 : (secs.fmod 3600).fdiv 60 = secs % 3600 / 60 := by
      rw [hfm]; exact Int.fdiv_eq_ediv _ (by omega)
    have hfm2 : (secs.fmod 3600).fmod 60 = secs % 3600 % 60 := by
      rw [hfm]; exact Int.fmod_eq_emod _ (by omega)
    have hcond : 0 ≤ secs.fdiv 3600 ∧ secs.fdiv 3600 ≤ 23 := by
      rw [hfd]; omega
    have hred : to_time_safe (.timedelta secs)
        = if 0 ≤ secs.fdiv 3600 ∧ secs.fdiv 3600 ≤ 23 then
            .ok (some ((secs.fdiv 3600).toNat * 3600
              + ((secs.fmod 3600).fdiv 60).toNat * 60 + ((secs.fmod 3600).fmod 60).toNat))
          else .error "ValueError" := rfl
    rw [hred, if_pos hcond]
    have harith : (secs / 3600).toNat * 3600 + (secs % 3600 / 60).toNat * 60
        + (secs % 3600 % 60).toNat = secs.toNat := by omega
    rw [hfd, hfd2, hfm2, harith]
  refine ⟨?_, ?_, ?_, htd, ?_, ?_⟩
  · match v with
    | .pynone => exact ⟨none, rfl⟩
    | .time t => exact ⟨some t, rfl⟩
    | .timedelta secs => exact ⟨some secs.toNat, htd secs rfl⟩
    | .str s =>
      by_cases hs : s = "" || s = "NaT" || s = "None"
      · refine ⟨none, ?_⟩
        simp only [to_time_safe]
        rw [if_pos hs]
      · refine ⟨pdToDatetimeTime s, ?_⟩
        simp only [to_time_safe]
        rw [if_neg hs]
  · intro hv; subst hv; rfl
  · intro t hv; subst hv; rfl
  · intro s hv hsent
    subst hv
    simp only [to_time_safe]
    rw [if_pos (by simp only [Bool.or_eq_true, decide_eq_true_eq]; tauto)]
  · intro s hv hsent
    subst hv
    simp only [to_time_safe]
    rw [if_neg (by simp only [Bool.or_eq_true, decide_eq_true_eq]; tauto)]

/-- C8 counterexample to the claim as stated: a stored duration of exactly 24
hours — a value a relational TIME column can hold — makes the coercion raise
`ValueError` instead of returning a value, because the `datetime.time` call of
the timedelta branch is outside the `try` block. -/
theorem C8_counterexample :
    to_time_safe (.timedelta 86400) = .error "ValueError" ∧
    to_time_safe (.timedelta (-60)) = .error "ValueError" := ⟨rfl, rfl⟩

/-- C8 witness: the amended theorem applied to the 8:30 AM duration. -/
theorem C8_witness : to_time_safe (.timedelta 30600) = .ok (some 30600) := by
  have h := (C8_theorem (.timedelta 30600)
    (fun secs hs => by cases hs; exact ⟨by decide, by decide⟩)).2.2.2.1 30600 rfl
  simpa using h

/-! ### C4 — foreign-key resolution -/

/-- C4 (amended: provided distinct dimension rows have distinct string-rendered
key tuples — the `validate="m:1"` precondition): resolution never raises and
never drops a row (one id slot per curated row), a resolved id points to the
unique dimension row whose rendered key matches — many-to-one — and a key with
no match yields an absent foreign key. -/
theorem C4_theorem (dfKeys : List String) (dimPairs : List (String × Nat))
    (hinj : (dimPairs.map Prod.fst).Nodup) :
    ∃ ids, map_id dfKeys dimPairs = .ok ids ∧
      ids.length = dfKeys.length ∧
      ∀ i (h1 : i < dfKeys.length) (h2 : i < ids.length),
        (∀ id0, ids[i] = some id0 →
          ∃ p ∈ dimPairs, p.1 = dfKeys[i] ∧ p.2 = id0 ∧
            ∀ q ∈ dimPairs, q.1 = dfKeys[i] → q = p) ∧
        (ids[i] = none ↔ ∀ p ∈ dimPairs, p.1 ≠ dfKeys[i]) := by
  refine ⟨dfKeys.map (fun k => (dimPairs.find? (fun p => p.1 == k)).map Prod.snd), ?_, ?_, ?_⟩
  · rw [map_id, if_pos hinj]
  · simp
  · intro i h1 h2
    have hgi : (dfKeys.map (fun k => (dimPairs.find? (fun p => p.1 == k)).map Prod.snd))[i]
        = (dimPairs.find? (fun p => p.1 == dfKeys[i])).map Prod.snd := by
      rw [List.getElem_map]
    constructor
    · intro id0 hsome
      rw [hgi] at hsome
      rcases hf : dimPairs.find? (fun p => p.1 == dfKeys[i]) with _ | p
      · rw [hf] at hsome; cases hsome
      · rw [hf] at hsome
        simp only [Option.map_some', Option.some.injEq] at hsome
        have hpm : p ∈ dimPairs := List.mem_of_find?_eq_some hf
        have hpk : p.1 = dfKeys[i] := by
          have := List.find?_some hf
          simpa using this
        refine ⟨p, hpm, hpk, hsome, ?_⟩
        intro q hq hqk
        exact List.inj_on_of_nodup_map hinj hq hpm (by rw [hqk, hpk])
    · rw [hgi]
      rcases hf : dimPairs.find? (fun p => p.1 == dfKeys[i]) with _ | p
      · rw [hf]
        simp only [Option.map_none']
        rw [List.find?_eq_none] at hf
        constructor
        · intro _ p hp
          simpa using hf p hp
        · intro _; trivial
      · rw [hf]
        simp only [Option.map_some']
        constructor
        · intro h; cases h
        · intro hall
          have hpm : p ∈ dimPairs := List.mem_of_find?_eq_some hf
          have hpk : p.1 = dfKeys[i] := by
            have := List.find?_some hf
            simpa using this
          exact absurd hpk (hall p hpm)

/-- C4 counterexample to the claim as stated: two curated rows whose professor
cells are Python `None` and the string `"none"` (title-cased to `"None"`)
produce two distinct `dim_docente` rows that render to the same string key
`"None"`, so the `validate="m:1"` merge inside `map_id` raises `MergeError` —
resolution does raise on real inputs. -/
theorem C4_counterexample :
    transform_all
      [⟨some "1", some "A", some "X", some "L", some "07:00-08:00", none, some "E/1"⟩,
       ⟨some "2", some "B", some "Y", some "L", some "07:00-08:00", some "none", some "E/2"⟩]
      = .error "MergeError" := by
  rfl

/-- C4 witness: the amended theorem applied to a two-key lookup with one hit
and one miss. -/
theorem C4_witness :
    map_id ["a", "zz"] [("a", 1), ("b", 2)] = .ok [some 1, none] ∧
    ∃ ids, map_id ["a", "zz"] [("a", 1), ("b", 2)] = .ok ids := by
  refine ⟨by rfl, ?_⟩
  obtain ⟨ids, hok, _⟩ := C4_theorem ["a", "zz"] [("a", 1), ("b", 2)] (by decide)
  exact ⟨ids, hok⟩

/-! ### C7 — dice by building and hour -/

theorem reMatchAt_lit (ps : List Char) : ∀ cs : List Char,
    reMatchAt (ps.map RTok.lit) cs
      = startsWithChars (cs.map Char.toLower) (ps.map Char.toLower) := by
  induction ps with
  | nil => intro cs; cases cs <;> rfl
  | cons p ps ih =>
    intro cs
    cases cs with
    | nil => rfl
    | cons c cs =>
      simp only [List.map_cons, reMatchAt, startsWithChars, rtokMatches]
      rw [ih cs]
      by_cases h : p.toLower = c.toLower
      · rw [h]
      · have h1 : (p.toLower == c.toLower) = false := by simpa using h
        have h2 : (c.toLower == p.toLower) = false := by simpa using Ne.symm h
        rw [h1, h2]

theorem reSearch_lit (ps : List Char) : ∀ cs : List Char,
    reSearchList (ps.map RTok.lit) cs
      = hasSubstr (ps.map Char.toLower) (cs.map Char.toLower) := by
  intro cs
  induction cs with
  | nil => exact reMatchAt_lit ps []
  | cons c cs ih =>
    show (reMatchAt (ps.map RTok.lit) (c :: cs) || reSearchList (ps.map RTok.lit) cs)
        = (startsWithChars (List.map Char.toLower (c :: cs)) (ps.map Char.toLower)
          || hasSubstr (ps.map Char.toLower) (List.map Char.toLower cs))
    rw [reMatchAt_lit ps (c :: cs), ih]

/-- A metacharacter-free pattern searched as a regex is exactly the
case-insensitive literal substring test. -/
theorem reSearch_lit_contains (pat hay : String) :
    reSearchList (pat.toList.map RTok.lit) hay.toList = containsCI hay pat := by
  rw [reSearch_lit pat.toList hay.toList]
  rfl

/-- A metacharacter-free pattern compiles to its literal characters. -/
theorem reCompileCI_literal (pat : String)
    (hp : ∀ c ∈ pat.toList, c ∉ RE_UNMODELLED ∧ c ≠ '(' ∧ c ≠ '.') :
    reCompileCI pat = .ok (pat.toList.map RTok.lit) := by
  have hA : pat.toList.any (fun c => RE_UNMODELLED.contains c) = false := by
    rw [List.any_eq_false]
    intro c hc
    simpa using (hp c hc).1
  have hB : pat.toList.any (fun c => c == '(') = false := by
    rw [List.any_eq_false]
    intro c hc
    simpa using (hp c hc).2.1
  rw [reCompileCI, if_neg (by rw [hA]; simp), if_neg (by rw [hB]; simp)]
  congr 1
  apply List.map_congr_left
  intro c hc
  rw [if_neg (by simpa using (hp c hc).2.2)]

/-- C7 (corrected: `str.contains` defaults to `regex=True`, so the building
argument is a case-insensitive regular expression searched anywhere in the
stringified building, not a literal substring — the pattern `"."` matches
every building, and an ill-formed pattern such as `"("` makes `re.compile`
raise `re.error` out of the method; the literal-substring reading holds
exactly for metacharacter-free arguments.  The hour string is coerced with
`_to_time_safe`, whose string branch never raises; its coercion is modelled on
the `hourShape` fragment — the sentinels and the colon-separated time shapes —
and within it an hour that coerces to absent short-circuits to an empty result
before the pattern is ever compiled): otherwise the result is exactly the
distinct projections of the cube rows with both times present whose building
matches the compiled pattern and whose closed interval contains the reference
time; on the scenario fact, `"08:00"` returns it and `"09:00"` returns
empty. -/
theorem C7_theorem :
    (∀ hs : String, ∃ r, to_time_safe (PyTimeVal.str hs) = .ok r) ∧
    (∀ (st : CuboState) (ed hs : String),
      hourShape hs = true →
      to_time_safe (PyTimeVal.str hs) = .ok none →
      (dice_en_edificio_hora st ed hs).1 = .ok []) ∧
    (∀ (st : CuboState) (ed hs : String) (t : Time) (e : String),
      to_time_safe (PyTimeVal.str hs) = .ok (some t) →
      reCompileCI ed = .error e →
      (dice_en_edificio_hora st ed hs).1 = .error e) ∧
    (∀ (st : CuboState) (ed hs : String) (t : Time) (ts : List RTok),
      to_time_safe (PyTimeVal.str hs) = .ok (some t) →
      reCompileCI ed = .ok ts →
      ∃ l, (dice_en_edificio_hora st ed hs).1 = .ok l ∧ l.Nodup ∧
        ∀ p, p ∈ l ↔ ∃ r ∈ st.cubo, diceCond ts t r = true ∧ diceProjOf r = p) ∧
    (∀ ed : String, (∀ c ∈ ed.toList, c ∉ RE_UNMODELLED ∧ c ≠ '(' ∧ c ≠ '.') →
      reCompileCI ed = .ok (ed.toList.map RTok.lit) ∧
      ∀ hay : String,
        reSearchList (ed.toList.map RTok.lit) hay.toList = containsCI hay ed) ∧
    (dice_en_edificio_hora scenarioCubo "1CCO4" "08:00").1 =
      .ok [⟨some "Garcia Lopez Juan", some "Algoritmos", some "ICC101",
        some "1CCO4/203", some "Lunes", some 25200, some 30600⟩] ∧
    (dice_en_edificio_hora scenarioCubo "1CCO4" "09:00").1 = .ok [] := by
  refine ⟨?_, ?_, ?_, ?_, ?_, by rfl, by rfl⟩
  · intro hs
    simp only [to_time_safe]
    by_cases hc : (hs = "" || hs = "NaT" || hs = "None") = true
    · rw [if_pos hc]; exact ⟨none, rfl⟩
    · rw [if_neg hc]; exact ⟨pdToDatetimeTime hs, rfl⟩
  · intro st ed hs _ hnone
    simp only [dice_en_edificio_hora, hnone]
  · intro st ed hs t e hsome hcomp
    simp only [dice_en_edificio_hora, hsome, hcomp]
  · intro st ed hs t ts hsome hcomp
    simp only [dice_en_edificio_hora, hsome, hcomp]
    by_cases hdf : st.cubo.filter (diceCond ts t) = []
    · rw [if_pos hdf]
      refine ⟨[], rfl, List.nodup_nil, ?_⟩
      intro p
      simp only [List.not_mem_nil, false_iff, not_exists]
      rintro r ⟨hr, hcond, _⟩
      have hmem : r ∈ st.cubo.filter (diceCond ts t) := List.mem_filter.mpr ⟨hr, hcond⟩
      rw [hdf] at hmem
      cases hmem
    · rw [if_neg hdf]
      refine ⟨_, rfl, ?_, ?_⟩
      · exact (sortByLe_perm diceLe
          (dedupFirst ((st.cubo.filter (diceCond ts t)).map diceProjOf))).symm.nodup
          (nodup_dedupFirst _)
      · intro p
        rw [mem_sortByLe, mem_dedupFirst, List.mem_map]
        constructor
        · rintro ⟨r, hr, hproj⟩
          have hm := List.mem_filter.mp hr
          exact ⟨r, hm.1, hm.2, hproj⟩
        · rintro ⟨r, hr, hcond, hproj⟩
          exact ⟨r, List.mem_filter.mpr ⟨hr, hcond⟩, hproj⟩
  · intro ed hp
    exact ⟨reCompileCI_literal ed hp, fun hay => reSearch_lit_contains ed hay⟩

/-- C7 counterexample to the claim as stated: the building argument is a
regular expression, not a literal substring — the pattern `"."` returns the
scenario row although `"1CCO4"` contains no literal dot, and the ill-formed
pattern `"("` raises `re.error` instead of returning a data frame. -/
theorem C7_counterexample :
    (dice_en_edificio_hora scenarioCubo "." "08:00").1 =
      .ok [⟨some "Garcia Lopez Juan", some "Algoritmos", some "ICC101",
        some "1CCO4/203", some "Lunes", some 25200, some 30600⟩] ∧
    containsCI "1CCO4" "." = false ∧
    (dice_en_edificio_hora scenarioCubo "(" "08:00").1 = .error "re.error" :=
  ⟨rfl, rfl, rfl⟩

/-- C7 witness: the characterization applied to the scenario state with the
literal pattern `"1CCO4"` at hour `"08:00"`: the scenario projection is in the
result because the underlying cube row satisfies the dice condition. -/
theorem C7_witness :
    ∃ l, (dice_en_edificio_hora scenarioCubo "1CCO4" "08:00").1 = .ok l ∧
      (⟨some "Garcia Lopez Juan", some "Algoritmos", some "ICC101",
        some "1CCO4/203", some "Lunes", some 25200, some 30600⟩ : DiceProj) ∈ l := by
  obtain ⟨l, hl, hnd, hiff⟩ := C7_theorem.2.2.2.1 scenarioCubo "1CCO4" "08:00" 28800
    ("1CCO4".toList.map RTok.lit) (by rfl) (by rfl)
  refine ⟨l, hl, ?_⟩
  exact (hiff _).mpr ⟨scenarioCubo.cubo.get ⟨0, by decide⟩, List.get_mem _ _ _,
    by rfl, by rfl⟩


/-! ### C5 — the instructor-by-day pivot -/

theorem length_filter_cons (p : α → Bool) (a : α) (l : List α) :
    (List.filter p (a :: l)).length
      = (if p a then 1 else 0) + (List.filter p l).length := by
  cases h : p a
  · simp [List.filter_cons, h]
  · simp only [List.filter_cons, h, if_pos, List.length_cons, if_true]
    omega

theorem sum_map_add (L : List β) (f g : β → Nat) :
    (L.map (fun x => f x + g x)).sum = (L.map f).sum + (L.map g).sum := by
  induction L with
  | nil => rfl
  | cons b rest ih =>
    simp only [List.map_cons, List.sum_cons, ih]
    omega

theorem sum_map_indicator_zero (L : List String) (d0 : String)
    (h : ∀ d ∈ L, d0 ≠ d) :
    (L.map (fun d => if d0 = d then 1 else 0)).sum = 0 := by
  induction L with
  | nil => rfl
  | cons d rest ih =>
    simp only [List.map_cons, List.sum_cons]
    rw [if_neg (h d (List.mem_cons_self d rest))]
    rw [ih (fun x hx => h x (List.mem_cons_of_mem _ hx))]

theorem sum_map_indicator_one (L : List String) (d0 : String)
    (hnd : L.Nodup) (hm : d0 ∈ L) :
    (L.map (fun d => if d0 = d then 1 else 0)).sum = 1 := by
  induction L with
  | nil => cases hm
  | cons d rest ih =>
    simp only [List.map_cons, List.sum_cons]
    rcases List.mem_cons.mp hm with h | h
    · rw [if_pos h]
      rw [sum_map_indicator_zero rest d0 (by
        intro x hx heq
        rw [← heq] at hx
        rw [h] at hx
        exact (List.nodup_cons.mp hnd).1 hx)]
    · rw [if_neg (by
        intro heq
        rw [heq] at h
        exact (List.nodup_cons.mp hnd).1 h)]
      rw [ih (List.nodup_cons.mp hnd).2 h]

theorem sum_map_zero (L : List String) (f : String → Nat) (h : ∀ d ∈ L, f d = 0) :
    (L.map f).sum = 0 := by
  induction L with
  | nil => rfl
  | cons d rest ih =>
    simp only [List.map_cons, List.sum_cons]
    rw [h d (List.mem_cons_self d rest), ih (fun x hx => h x (List.mem_cons_of_mem _ hx))]

/-- Partition of an instructor's session count over the six day columns. -/
theorem pivotTotalAux (n : String) :
    ∀ (cubo : List CubeRow),
      (∀ r ∈ cubo, ∀ d, r.dia_semana = some d → d ∈ ORDEN_DIAS) →
      (ORDEN_DIAS.map (fun d => (cubo.filter (fun r =>
        r.nombreCompleto == some n && r.dia_semana == some d && r.nrc.isSome)).length)).sum
      = (cubo.filter (fun r =>
        r.nombreCompleto == some n && r.dia_semana.isSome && r.nrc.isSome)).length
  | [], _ => by simp
  | r :: rest, hday => by
    have ih := pivotTotalAux n rest (fun x hx => hday x (List.mem_cons_of_mem _ hx))
    have hl : ∀ d : String,
        (List.filter (fun x => x.nombreCompleto == some n && x.dia_semana == some d
          && x.nrc.isSome) (r :: rest)).length
        = (if (r.nombreCompleto == some n && r.dia_semana == some d && r.nrc.isSome)
            then 1 else 0)
          + (List.filter (fun x => x.nombreCompleto == some n && x.dia_semana == some d
              && x.nrc.isSome) rest).length :=
      fun d => length_filter_cons _ _ _
    simp only [hl]
    rw [sum_map_add, length_filter_cons, ih]
    congr 1
    by_cases hn : (r.nombreCompleto == some n) = true
    · by_cases hc : r.nrc.isSome = true
      · rcases hd : r.dia_semana with _ | d0
        · rw [if_neg (by simp)]
          rw [sum_map_zero ORDEN_DIAS _ (fun d hd2 => by simp)]
        · have hd0 : d0 ∈ ORDEN_DIAS := hday r (List.mem_cons_self r rest) d0 hd
          rw [if_pos (by simp [hn, hc])]
          have hrw : (ORDEN_DIAS.map (fun d =>
              if (r.nombreCompleto == some n && some d0 == some d
                && r.nrc.isSome) = true then (1 : Nat) else 0))
              = (ORDEN_DIAS.map (fun d => if d0 = d then (1 : Nat) else 0)) := by
            apply List.map_congr_left
            intro d _
            by_cases h : d0 = d
            · rw [if_pos (by simp [hn, hc, h]), if_pos h]
            · rw [if_neg (by simp [h]), if_neg h]
          rw [hrw, sum_map_indicator_one ORDEN_DIAS d0 (by decide) hd0]
      · have hH : ((r.nombreCompleto == some n && r.dia_semana.isSome
            && r.nrc.isSome) : Bool) = false := by
          simp [Bool.eq_false_iff.mpr hc]
        rw [hH, if_neg (by simp)]
        rw [sum_map_zero ORDEN_DIAS _ (fun d hd2 => by
          simp [Bool.eq_false_iff.mpr hc])]
    · have hH : ((r.nombreCompleto == some n && r.dia_semana.isSome
          && r.nrc.isSome) : Bool) = false := by
        simp [Bool.eq_false_iff.mpr hn]
      rw [hH, if_neg (by simp)]
      rw [sum_map_zero ORDEN_DIAS _ (fun d hd2 => by
        simp [Bool.eq_false_iff.mpr hn])]

theorem map_fst_pair_map {β : Type} (f : String → β) (names : List String) :
    (names.map (fun n => (n, f n))).map Prod.fst = names := by
  induction names with
  | nil => rfl
  | cons n rest ih => simp only [List.map_cons, ih]

/-- The (name, day) groupby prefilter of the pivot is absorbed by any group
predicate that already forces a present name and day. -/
theorem filter_pre_absorb (cubo : List CubeRow) (p : CubeRow → Bool)
    (himp : ∀ r, p r = true → (r.nombreCompleto.isSome && r.dia_semana.isSome) = true) :
    (cubo.filter (fun r => r.nombreCompleto.isSome && r.dia_semana.isSome)).filter p
      = cubo.filter p := by
  rw [List.filter_filter]
  apply List.filter_congr
  intro r _
  by_cases hp : p r = true
  · rw [hp, himp r hp]
    rfl
  · rw [Bool.eq_false_iff.mpr hp]
    rfl

/-- C5 (amended: the pivot has SIX day columns, Monday..Saturday in the fixed
order; a cell counts that instructor's fact rows carrying a session identifier
on that day WITH multiplicity, not distinct session identifiers; an instructor
appears as a row exactly when at least one of their rows carries a recognized
day; the trailing Total equals the sum of the six day cells, i.e. the count of
the instructor's session rows over recognized days): stated for any cube view
whose day values are bound to the `ORDEN_DIAS` categorical, which
`Horario_cubo.__init__` guarantees. -/
theorem C5_theorem (cubo : List CubeRow)
    (hday : ∀ r ∈ cubo, ∀ d, r.dia_semana = some d → d ∈ ORDEN_DIAS) :
    (∀ n, n ∈ (pivotTable cubo).map Prod.fst ↔
      ∃ r ∈ cubo, r.nombreCompleto = some n ∧ r.dia_semana.isSome = true) ∧
    ((pivotTable cubo).map Prod.fst).Nodup ∧
    (∀ entry ∈ pivotTable cubo,
      entry.2.1 = ORDEN_DIAS.map (fun d => (cubo.filter (fun r =>
        r.nombreCompleto == some entry.1 && r.dia_semana == some d
          && r.nrc.isSome)).length) ∧
      entry.2.1.length = 6 ∧
      entry.2.2 = entry.2.1.sum ∧
      entry.2.2 = (cubo.filter (fun r =>
        r.nombreCompleto == some entry.1 && r.dia_semana.isSome
          && r.nrc.isSome)).length) := by
  have hmapfst : (pivotTable cubo).map Prod.fst
      = sortByLe strLe (dedupFirst
          ((cubo.filter (fun r => r.nombreCompleto.isSome && r.dia_semana.isSome)).filterMap
            (fun r => r.nombreCompleto))) :=
    map_fst_pair_map _ _
  have habsorb : ∀ n : String, ∀ d : String,
      (cubo.filter (fun r => r.nombreCompleto.isSome && r.dia_semana.isSome)).filter
        (fun r => r.nombreCompleto == some n && r.dia_semana == some d && r.nrc.isSome)
      = cubo.filter
        (fun r => r.nombreCompleto == some n && r.dia_semana == some d && r.nrc.isSome) := by
    intro n d
    apply filter_pre_absorb
    intro r hp
    simp only [Bool.and_eq_true] at hp ⊢
    obtain ⟨⟨h1, h2⟩, h3⟩ := hp
    constructor
    · rcases hrn : r.nombreCompleto with _ | x
      · rw [hrn] at h1; simp at h1
      · rfl
    · rcases hrd : r.dia_semana with _ | x
      · rw [hrd] at h2; simp at h2
      · rfl
  refine ⟨?_, ?_, ?_⟩
  · intro n
    rw [hmapfst, mem_sortByLe, mem_dedupFirst, List.mem_filterMap]
    constructor
    · rintro ⟨r, hr, hrn⟩
      have hm := List.mem_filter.mp hr
      have h2 := hm.2
      simp only [Bool.and_eq_true] at h2
      exact ⟨r, hm.1, hrn, h2.2⟩
    · rintro ⟨r, hr, hrn, hrd⟩
      refine ⟨r, List.mem_filter.mpr ⟨hr, ?_⟩, hrn⟩
      rw [hrn]
      simp [hrd]
  · rw [hmapfst]
    exact (sortByLe_perm _ _).symm.nodup (nodup_dedupFirst _)
  · intro entry hentry
    simp only [pivotTable, List.mem_map] at hentry
    obtain ⟨n, hn, hentry⟩ := hentry
    subst hentry
    refine ⟨?_, by simp [ORDEN_DIAS], rfl, ?_⟩
    · apply List.map_congr_left
      intro d _
      rw [habsorb n d]
    · have hcells : (ORDEN_DIAS.map (fun d =>
          ((cubo.filter (fun r => r.nombreCompleto.isSome && r.dia_semana.isSome)).filter
            (fun r => r.nombreCompleto == some n && r.dia_semana == some d
              && r.nrc.isSome)).length))
          = (ORDEN_DIAS.map (fun d => (cubo.filter (fun r =>
              r.nombreCompleto == some n && r.dia_semana == some d
                && r.nrc.isSome)).length)) := by
        apply List.map_congr_left
        intro d _
        rw [habsorb n d]
      rw [hcells]
      exact pivotTotalAux n cubo hday

/-- C5 counterexample to the claim as stated: the pivot has six day columns,
not seven; and with the same session identifier listed twice for one
instructor on Monday, the Monday entry is 2 while the count of distinct
session identifiers for that instructor and day is 1. -/
theorem C5_counterexample :
    ORDEN_DIAS.length = 6 ∧
    pivotTable [pivotRowA, pivotRowA] = [("A", [2, 0, 0, 0, 0, 0], 2)] ∧
    (dedupFirst ((([pivotRowA, pivotRowA].filter (fun r =>
      r.nombreCompleto == some "A" && r.dia_semana == some "Lunes"
        && r.nrc.isSome)).map (fun r => r.nrc)))).length = 1 :=
  ⟨rfl, rfl, rfl⟩

/-- C5 witness: the amended theorem applied to the one-row cube of
`pivotRowA`, together with a direct evaluation of its pivot. -/
theorem C5_witness :
    pivotTable [pivotRowA] = [("A", [1, 0, 0, 0, 0, 0], 1)] ∧
    "A" ∈ (pivotTable [pivotRowA]).map Prod.fst := by
  refine ⟨by rfl, ?_⟩
  have h := (C5_theorem [pivotRowA] (by
    intro r hr d hd
    rw [List.mem_singleton] at hr
    subst hr
    injection hd with h2
    rw [← h2]
    decide)).1 "A"
  exact h.mpr ⟨pivotRowA, List.mem_singleton.mpr rfl, rfl, rfl⟩

/-! ### C6 — the fixed day ordering and stable sorting -/

theorem lexLe_cons (a b : Nat) (x y : List Nat) :
    lexLe (a :: x) (b :: y) = if a < b then true else if b < a then false else lexLe x y := rfl

theorem lexLe_total : ∀ x y : List Nat, lexLe x y = true ∨ lexLe y x = true
  | [], _ => Or.inl rfl
  | _ :: _, [] => Or.inr rfl
  | a :: x, b :: y => by
    rcases Nat.lt_trichotomy a b with h | h | h
    · left
      rw [lexLe_cons, if_pos h]
    · subst h
      rcases lexLe_total x y with h2 | h2
      · left
        rw [lexLe_cons, if_neg (Nat.lt_irrefl a), if_neg (Nat.lt_irrefl a)]
        exact h2
      · right
        rw [lexLe_cons, if_neg (Nat.lt_irrefl a), if_neg (Nat.lt_irrefl a)]
        exact h2
    · right
      rw [lexLe_cons, if_pos h]

theorem lexLe_trans : ∀ x y z : List Nat,
    lexLe x y = true → lexLe y z = true → lexLe x z = true
  | [], _, _ => by
    intro _ _
    rfl
  | _ :: _, [], _ => by
    intro h _
    cases h
  | _ :: _, _ :: _, [] => by
    intro _ h
    cases h
  | a :: x, b :: y, c :: z => by
    intro h1 h2
    rw [lexLe_cons] at h1 h2 ⊢
    rcases Nat.lt_trichotomy a b with hab | hab | hab
    · rcases Nat.lt_trichotomy b c with hbc | hbc | hbc
      · rw [if_pos (by omega)]
      · subst hbc
        rw [if_pos hab]
      · rw [if_neg (by omega), if_pos hbc] at h2
        cases h2
    · subst hab
      rw [if_neg (Nat.lt_irrefl a), if_neg (Nat.lt_irrefl a)] at h1
      rcases Nat.lt_trichotomy a c with hac | hac | hac
      · rw [if_pos hac]
      · subst hac
        rw [if_neg (Nat.lt_irrefl a), if_neg (Nat.lt_irrefl a)] at h2 ⊢
        exact lexLe_trans x y z h1 h2
      · rw [if_neg (by omega), if_pos hac] at h2
        cases h2
    · rw [if_neg (by omega), if_pos hab] at h1
      cases h1

theorem lexLe_head (a b : Nat) (x y : List Nat)
    (h : lexLe (a :: x) (b :: y) = true) : a ≤ b := by
  rw [lexLe_cons] at h
  by_cases h1 : a < b
  · omega
  · rw [if_neg h1] at h
    by_cases h2 : b < a
    · rw [if_pos h2] at h
      cases h
    · omega

theorem lexLe_append_idx : ∀ (k : List Nat) (i j : Nat),
    lexLe (k ++ [i]) (k ++ [j]) = true → i ≤ j
  | [], i, j => by
    intro h
    simp only [List.nil_append] at h
    exact lexLe_head i j [] [] h
  | a :: k, i, j => by
    intro h
    simp only [List.cons_append] at h
    rw [lexLe_cons, if_neg (Nat.lt_irrefl a), if_neg (Nat.lt_irrefl a)] at h
    exact lexLe_append_idx k i j h

theorem lexLe_append_base : ∀ (x y u v : List Nat), x.length = y.length →
    lexLe (x ++ u) (y ++ v) = true → lexLe x y = true
  | [], [], _, _, _, _ => rfl
  | [], _ :: _, _, _, hlen, _ => by cases hlen
  | _ :: _, [], _, _, hlen, _ => by cases hlen
  | a :: x, b :: y, u, v, hlen, h => by
    simp only [List.cons_append] at h
    rw [lexLe_cons] at h ⊢
    by_cases h1 : a < b
    · rw [if_pos h1]
    · rw [if_neg h1] at h ⊢
      by_cases h2 : b < a
      · rw [if_pos h2] at h
        cases h
      · rw [if_neg h2] at h ⊢
        exact lexLe_append_base x y u v (by simpa using hlen) h

theorem mem_insertLe {le : α → α → Bool} {x a : α} {xs : List α} :
    a ∈ insertLe le x xs ↔ a = x ∨ a ∈ xs := by
  rw [(insertLe_perm le x xs).mem_iff]
  simp

theorem pairwise_insertLe (le : α → α → Bool)
    (htot : ∀ a b, le a b = true ∨ le b a = true)
    (htrans : ∀ a b c, le a b = true → le b c = true → le a c = true)
    (x : α) : ∀ (xs : List α), xs.Pairwise (fun a b => le a b = true) →
      (insertLe le x xs).Pairwise (fun a b => le a b = true)
  | [], _ => by simp [insertLe]
  | y :: rest, hp => by
    rw [insertLe]
    rcases List.pairwise_cons.mp hp with ⟨hy, hrest⟩
    by_cases h : le y x = true
    · rw [if_pos h]
      refine List.pairwise_cons.mpr ⟨?_, pairwise_insertLe le htot htrans x rest hrest⟩
      intro z hz
      rcases mem_insertLe.mp hz with hzx | hzr
      · subst hzx
        exact h
      · exact hy z hzr
    · rw [if_neg h]
      have hxy : le x y = true := (htot x y).resolve_right h
      refine List.pairwise_cons.mpr ⟨?_, hp⟩
      intro z hz
      rcases List.mem_cons.mp hz with hzy | hzr
      · subst hzy
        exact hxy
      · exact htrans x y z hxy (hy z hzr)

theorem pairwise_sortByLe (le : α → α → Bool)
    (htot : ∀ a b, le a b = true ∨ le b a = true)
    (htrans : ∀ a b c, le a b = true → le b c = true → le a c = true)
    (xs : List α) : (sortByLe le xs).Pairwise (fun a b => le a b = true) := by
  suffices h : ∀ (ys acc : List α), acc.Pairwise (fun a b => le a b = true) →
      (ys.foldl (fun a x => insertLe le x a) acc).Pairwise (fun a b => le a b = true) from
    h xs [] (by simp)
  intro ys
  induction ys with
  | nil => exact fun acc h => h
  | cons y rest ih =>
    intro acc h
    exact ih _ (pairwise_insertLe le htot htrans y acc h)

theorem map_fst_tagIdxFrom (n : Nat) : ∀ (xs : List α), (tagIdxFrom n xs).map Prod.fst = xs
  | [] => rfl
  | a :: rest => by
    simp only [tagIdxFrom, List.map_cons]
    rw [map_fst_tagIdxFrom (n + 1) rest]

theorem tagIdxFrom_snd_bound {n : Nat} : ∀ {xs : List α} {p : α × Nat},
    p ∈ tagIdxFrom n xs → n ≤ p.2
  | [], p => by simp [tagIdxFrom]
  | a :: rest, p => by
    simp only [tagIdxFrom, List.mem_cons]
    rintro (h | h)
    · subst h
      exact Nat.le_refl n
    · exact Nat.le_of_succ_le (tagIdxFrom_snd_bound h)

theorem tagIdxFrom_fst_mem {n : Nat} : ∀ {xs : List α} {p : α × Nat},
    p ∈ tagIdxFrom n xs → p.1 ∈ xs
  | [], p => by simp [tagIdxFrom]
  | a :: rest, p => by
    simp only [tagIdxFrom, List.mem_cons]
    rintro (h | h)
    · subst h
      exact Or.inl rfl
    · exact Or.inr (tagIdxFrom_fst_mem h)

theorem nodup_snd_tagIdxFrom (n : Nat) : ∀ (xs : List α),
    ((tagIdxFrom n xs).map Prod.snd).Nodup
  | [] => by simp [tagIdxFrom]
  | a :: rest => by
    simp only [tagIdxFrom, List.map_cons]
    refine List.nodup_cons.mpr ⟨?_, nodup_snd_tagIdxFrom (n + 1) rest⟩
    intro hmem
    rw [List.mem_map] at hmem
    obtain ⟨p, hp, hpn⟩ := hmem
    have := tagIdxFrom_snd_bound hp
    omega

theorem categorize_mem (v : Option String) (d : String)
    (h : categorize v = some d) : d ∈ ORDEN_DIAS := by
  rcases v with _ | x
  · simp [categorize] at h
  · simp only [categorize, Option.some_bind] at h
    by_cases hx : x ∈ ORDEN_DIAS
    · rw [if_pos hx] at h
      injection h with h2
      rw [← h2]
      exact hx
    · rw [if_neg hx] at h
      cases h

theorem drillKey_cons (r : CubeRow) :
    drillKey r = dayRank r.dia_semana :: (timeKeyParts r.h_inicio ++ timeKeyParts r.h_fin) := rfl

theorem drillKey_length (r : CubeRow) : (drillKey r).length = 5 := by
  rw [drillKey_cons]
  rcases r.h_inicio with _ | t1 <;> rcases r.h_fin with _ | t2 <;> rfl

theorem leD_day_le (p q : CubeRow × Nat)
    (h : lexLe (drillKey p.1 ++ [p.2]) (drillKey q.1 ++ [q.2]) = true) :
    dayRank p.1.dia_semana ≤ dayRank q.1.dia_semana := by
  rw [drillKey_cons, drillKey_cons, List.cons_append, List.cons_append] at h
  exact lexLe_head _ _ _ _ h

/-- C6 (amended: the ordering has SIX values, Monday..Saturday, and the sort is
stable with respect to the full (day, start, end) key — rows differing in a
secondary time key are ordered by that key, not by input position): drill-down
re-binds the day categorical (out-of-category values become absent) and
stable-sorts; the output is a permutation of the re-categorized input, sorted
lexicographically day-major with `ORDEN_DIAS` index as the day rank, every
absent-day row comes after every known-day row, and full-key ties keep their
original relative positions. -/
theorem C6_theorem (df : List CubeRow) :
    ORDEN_DIAS = ["Lunes", "Martes", "Miercoles", "Jueves", "Viernes", "Sabado"] ∧
    (drilldown_sort df).Perm (df.map recatRow) ∧
    (sortIdxBy drillKey (df.map recatRow)).Pairwise
      (fun p q => lexLe (drillKey p.1) (drillKey q.1) = true) ∧
    (drilldown_sort df).Pairwise
      (fun r1 r2 => r1.dia_semana = none → r2.dia_semana = none) ∧
    (sortIdxBy drillKey (df.map recatRow)).Pairwise
      (fun p q => drillKey p.1 = drillKey q.1 → p.2 < q.2) := by
  have hpair : (sortIdxBy drillKey (df.map recatRow)).Pairwise
      (fun p q => lexLe (drillKey p.1 ++ [p.2]) (drillKey q.1 ++ [q.2]) = true) :=
    pairwise_sortByLe
      (fun p q : CubeRow × Nat => lexLe (drillKey p.1 ++ [p.2]) (drillKey q.1 ++ [q.2]))
      (fun p q => lexLe_total _ _) (fun p q r => lexLe_trans _ _ _)
      (tagIdxFrom 0 (df.map recatRow))
  have hperm : (sortIdxBy drillKey (df.map recatRow)).Perm
      (tagIdxFrom 0 (df.map recatRow)) := sortByLe_perm _ _
  have hpermfst : (drilldown_sort df).Perm (df.map recatRow) := by
    have h1 := hperm.map Prod.fst
    rw [map_fst_tagIdxFrom] at h1
    exact h1
  have hmemOk : ∀ p ∈ sortIdxBy drillKey (df.map recatRow),
      ∀ d, p.1.dia_semana = some d → d ∈ ORDEN_DIAS := by
    intro p hp d hd
    have hp2 : p ∈ tagIdxFrom 0 (df.map recatRow) := hperm.mem_iff.mp hp
    have hp3 : p.1 ∈ df.map recatRow := tagIdxFrom_fst_mem hp2
    obtain ⟨r, _, hr⟩ := List.mem_map.mp hp3
    rw [← hr] at hd
    exact categorize_mem _ _ hd
  refine ⟨rfl, hpermfst, ?_, ?_, ?_⟩
  · exact hpair.imp (fun h =>
      lexLe_append_base _ _ _ _ (by rw [drillKey_length, drillKey_length]) h)
  · rw [drilldown_sort, List.pairwise_map]
    apply List.Pairwise.imp_of_mem ?_ hpair
    intro p q hp hq hle hnone
    have hled := leD_day_le p q hle
    rcases hq2 : q.1.dia_semana with _ | d
    · rfl
    · have hd : d ∈ ORDEN_DIAS := hmemOk q hq d hq2
      have hlt : dayRank q.1.dia_semana < ORDEN_DIAS.length := by
        rw [hq2]
        exact List.indexOf_lt_length.mpr hd
      have h6 : dayRank p.1.dia_semana = ORDEN_DIAS.length := by
        rw [hnone]
        rfl
      omega
  · have hsnd : (sortIdxBy drillKey (df.map recatRow)).Pairwise
        (fun p q => p.2 ≠ q.2) := by
      have h1 : ((sortIdxBy drillKey (df.map recatRow)).map Prod.snd).Nodup :=
        ((hperm.map Prod.snd).symm).nodup (nodup_snd_tagIdxFrom 0 (df.map recatRow))
      exact List.pairwise_map.mp h1
    exact (hpair.and hsnd).imp (fun h hk => by
      have hle := h.1
      rw [hk] at hle
      have := lexLe_append_idx _ _ _ hle
      omega)

/-- C6 counterexample to the claim as stated: the ordering has six values, not
seven; and two rows whose day value `"Domingo"` is outside the set are
reordered by their start times — the input relative order among out-of-set
rows is NOT preserved. -/
theorem C6_counterexample :
    ORDEN_DIAS.length = 6 ∧
    drilldown_sort [domingoRow1, domingoRow2]
      = [recatRow domingoRow2, recatRow domingoRow1] ∧
    recatRow domingoRow1 ≠ recatRow domingoRow2 ∧
    domingoRow1.dia_semana = some "Domingo" ∧ "Domingo" ∉ ORDEN_DIAS := by
  refine ⟨rfl, by rfl, by decide, rfl, by decide⟩

/-- C6 witness: the theorem's permutation conjunct at a concrete two-row frame
whose drill-down reorders Tuesday after Monday. -/
theorem C6_witness :
    drilldown_sort [martesRow, lunesRow] = [lunesRow, martesRow] ∧
    (drilldown_sort [martesRow, lunesRow]).Perm
      ([martesRow, lunesRow].map recatRow) :=
  ⟨by rfl, (C6_theorem [martesRow, lunesRow]).2.1⟩

/-! ### C9 — query operations leave the cube view unchanged -/

theorem categorize_idem (v : Option String) : categorize (categorize v) = categorize v := by
  rcases v with _ | x
  · rfl
  · simp only [categorize, Option.some_bind]
    by_cases hx : x ∈ ORDEN_DIAS
    · rw [if_pos hx]
      simp only [Option.some_bind]
      rw [if_pos hx]
    · rw [if_neg hx]
      rfl

theorem map_self_of_mem (f : α → α) :
    ∀ (xs : List α), (∀ a ∈ xs, f a = a) → xs.map f = xs
  | [] => fun _ => rfl
  | a :: rest => fun h => by
    simp only [List.map_cons]
    rw [h a (List.mem_cons_self a rest),
      map_self_of_mem f rest (fun x hx => h x (List.mem_cons_of_mem a hx))]

/-- C9: the cube built by `Horario_cubo.__init__` satisfies the day-categorical
invariant, and under that invariant every query operation — slice, both dice
forms, drill-down with and without an explicit subset, roll-up, pivot, and the
sibling `h_docente` — returns the state unchanged: the only column write that
reaches `self.cubo` (the categorical re-binding in the no-argument drill-down)
rewrites each day cell to its own value. -/
theorem C9_theorem :
    (∀ hechos dimDoc dimMat dimEsp dimTmp,
      ∀ r ∈ Horario_cubo_init hechos dimDoc dimMat dimEsp dimTmp,
        categorize r.dia_semana = r.dia_semana) ∧
    (∀ st : CuboState, (∀ r ∈ st.cubo, categorize r.dia_semana = r.dia_semana) →
      (∀ texto, (slice_por_docente st texto).2 = st) ∧
      (∀ q, (dice_por_materia st q).2 = st) ∧
      (∀ ed hs, (dice_en_edificio_hora st ed hs).2 = st) ∧
      (∀ dfIn, (drilldown_docente_dia_hora st dfIn).2 = st) ∧
      (rollup_horas_por_docente st).2 = st ∧
      (pivot_docente_por_dia st).2 = st ∧
      (∀ nd, (h_docente st nd).2 = st)) := by
  constructor
  · intro hechos dimDoc dimMat dimEsp dimTmp r hr
    simp only [Horario_cubo_init, List.mem_map] at hr
    obtain ⟨h, _, hh⟩ := hr
    rw [← hh]
    exact categorize_idem _
  · intro st hinv
    have hmap : st.cubo.map recatRow = st.cubo := by
      apply map_self_of_mem
      intro r hr
      show { r with dia_semana := categorize r.dia_semana } = r
      rw [hinv r hr]
    refine ⟨?_, ?_, ?_, ?_, rfl, rfl, ?_⟩
    · intro texto
      simp only [slice_por_docente]
      split <;> rfl
    · intro q
      simp only [dice_por_materia]
      split <;> rfl
    · intro ed hs
      simp only [dice_en_edificio_hora]
      rcases to_time_safe (PyTimeVal.str hs) with e | r2
      · rfl
      · rcases r2 with _ | t
        · rfl
        · rcases reCompileCI ed with e2 | ts
          · rfl
          · simp only
            split <;> rfl
    · intro dfIn
      rcases dfIn with _ | d
      · simp only [drilldown_docente_dia_hora, hmap]
      · rfl
    · intro nd
      simp only [h_docente]
      split <;> rfl

/-- C9 witness: the preservation facts at a concrete one-row cube state. -/
theorem C9_witness :
    (drilldown_docente_dia_hora ⟨[pivotRowA]⟩ none).2 = (⟨[pivotRowA]⟩ : CuboState) ∧
    (pivot_docente_por_dia ⟨[pivotRowA]⟩).2 = (⟨[pivotRowA]⟩ : CuboState) ∧
    (rollup_horas_por_docente ⟨[pivotRowA]⟩).2 = (⟨[pivotRowA]⟩ : CuboState) := by
  have h := C9_theorem.2 ⟨[pivotRowA]⟩ (by decide)
  exact ⟨h.2.2.2.1 none, h.2.2.2.2.2.1, h.2.2.2.2.1⟩

/-! ### C1 — the star-schema round trip -/

theorem toTimeCell_id (v : Option Time) : toTimeCell v = v := by
  rcases v with _ | t <;> rfl

theorem map_id_ok {dfKeys : List String} {dimPairs : List (String × Nat)}
    {ids : List (Option Nat)} (h : map_id dfKeys dimPairs = .ok ids) :
    (dimPairs.map Prod.fst).Nodup ∧
    ids = dfKeys.map (fun k => (dimPairs.find? (fun p => p.1 == k)).map Prod.snd) := by
  by_cases hn : (dimPairs.map Prod.fst).Nodup
  · rw [map_id, if_pos hn] at h
    injection h with h2
    exact ⟨hn, h2.symm⟩
  · rw [map_id, if_neg hn] at h
    cases h

theorem zipFacts_map (dimTmp : List (Nat × TiempoKey))
    (f1 f2 f3 : CuratedRow → Option Nat) :
    ∀ (cs : List CuratedRow),
      zipFacts dimTmp cs (cs.map f1) (cs.map f2) (cs.map f3)
        = cs.map (fun c =>
            ⟨f1 c, f2 c, f3 c, lookupTiempo dimTmp c, c.nrc, c.clave, c.dias,
              c.duracion_min⟩)
  | [] => rfl
  | c :: rest => by
    simp only [List.map_cons, zipFacts]
    rw [zipFacts_map dimTmp f1 f2 f3 rest]

/-- Destructure a successful `transform_all` run into its three id columns. -/
theorem transform_all_ok_parts (raw : List RawRow) (s : StarSchema)
    (hok : transform_all raw = .ok s) :
    ∃ idsDoc idsMat idsEsp,
      map_id ((curate raw).map (fun c => pyStr c.profesor))
        ((build_dim ((curate raw).map (fun c => c.profesor))).map
          (fun p => (pyStr p.2, p.1))) = .ok idsDoc ∧
      map_id ((curate raw).map (fun c => pyKey [c.clave, c.materia]))
        ((build_dim ((curate raw).map materiaKeyOf)).map
          (fun p => (pyKey [p.2.clave, p.2.materia], p.1))) = .ok idsMat ∧
      map_id ((curate raw).map (fun c => pyStr c.codigo_salon))
        ((build_dim ((curate raw).map espacioKeyOf)).map
          (fun p => (pyStr p.2.codigo_salon, p.1))) = .ok idsEsp ∧
      s = ⟨build_dim ((curate raw).map (fun c => c.profesor)),
           build_dim ((curate raw).map materiaKeyOf),
           build_dim ((curate raw).map espacioKeyOf),
           build_dim ((curate raw).map tiempoKeyOf),
           zipFacts (build_dim ((curate raw).map tiempoKeyOf)) (curate raw)
             idsDoc idsMat idsEsp⟩ := by
  rw [transform_all] at hok
  rcases h1 : map_id ((curate raw).map (fun c => pyStr c.profesor))
      ((build_dim ((curate raw).map (fun c => c.profesor))).map
        (fun p => (pyStr p.2, p.1))) with e | idsDoc
  · rw [h1] at hok
    cases hok
  · rw [h1] at hok
    rcases h2 : map_id ((curate raw).map (fun c => pyKey [c.clave, c.materia]))
        ((build_dim ((curate raw).map materiaKeyOf)).map
          (fun p => (pyKey [p.2.clave, p.2.materia], p.1))) with e | idsMat
    · rw [h2] at hok
      cases hok
    · rw [h2] at hok
      rcases h3 : map_id ((curate raw).map (fun c => pyStr c.codigo_salon))
          ((build_dim ((curate raw).map espacioKeyOf)).map
            (fun p => (pyStr p.2.codigo_salon, p.1))) with e | idsEsp
      · rw [h3] at hok
        cases hok
      · rw [h3] at hok
        injection hok with hs
        exact ⟨idsDoc, idsMat, idsEsp, h1, h2, h3, hs.symm⟩

/-- Resolve a curated key against a freshly built dimension: when the rendered
keys of the dimension are pairwise distinct, the string lookup finds the
dimension row carrying exactly the curated key tuple, and that row's id looks
back up to the same row. -/
theorem dim_resolve [DecidableEq κ] (keys : List κ) (render : κ → String) (c : κ)
    (hmem : c ∈ keys)
    (hinj : ((build_dim keys).map (fun p => render p.2)).Nodup) :
    ∃ q, (build_dim keys).find? (fun p => render p.2 == render c) = some q ∧
      q ∈ build_dim keys ∧ q.2 = c ∧
      (build_dim keys).find? (fun p => p.1 == q.1) = some q := by
  have hc : c ∈ dedupFirst keys := (mem_dedupFirst keys c).mpr hmem
  obtain ⟨q0, hq0mem, hq0⟩ := numberFrom_mem_snd (n := 1) hc
  have hsome : ((build_dim keys).find? (fun p => render p.2 == render c)).isSome := by
    rw [List.find?_isSome]
    exact ⟨q0, hq0mem, by rw [hq0]; simp⟩
  rcases hfind : (build_dim keys).find? (fun p => render p.2 == render c) with _ | q
  · rw [hfind] at hsome
    cases hsome
  · have hqmem : q ∈ build_dim keys := List.mem_of_find?_eq_some hfind
    have hqrender : render q.2 = render c := by
      have := List.find?_some hfind
      simpa using this
    have hq2 : q = q0 := by
      apply List.inj_on_of_nodup_map hinj hqmem hq0mem
      rw [hqrender, hq0]
    refine ⟨q, hfind, hqmem, by rw [hq2, hq0], numberFrom_find_id hqmem⟩

/-- Resolve a curated tiempo tuple against `dim_tiempo`: the direct tuple merge
finds a row carrying exactly that tuple, and its id looks back up to it. -/
theorem tiempo_resolve (keys : List TiempoKey) (c : TiempoKey) (hmem : c ∈ keys) :
    ∃ q, (build_dim keys).find? (fun p => p.2 == c) = some q ∧
      q ∈ build_dim keys ∧ q.2 = c ∧
      (build_dim keys).find? (fun p => p.1 == q.1) = some q := by
  have hc : c ∈ dedupFirst keys := (mem_dedupFirst keys c).mpr hmem
  obtain ⟨q0, hq0mem, hq0⟩ := numberFrom_mem_snd (n := 1) hc
  have hsome : ((build_dim keys).find? (fun p => p.2 == c)).isSome := by
    rw [List.find?_isSome]
    exact ⟨q0, hq0mem, by rw [hq0]; simp⟩
  rcases hfind : (build_dim keys).find? (fun p => p.2 == c) with _ | q
  · rw [hfind] at hsome
    cases hsome
  · have hqmem : q ∈ build_dim keys := List.mem_of_find?_eq_some hfind
    have hq2 : q.2 = c := by
      have := List.find?_some hfind
      simpa using this
    exact ⟨q, hfind, hqmem, hq2, numberFrom_find_id hqmem⟩

/-- The `map_id` lookup through string-rendered dimension pairs equals the id
of the dimension row found by rendered-key comparison. -/
theorem find_pair_map {κ : Type} (dim : List (Nat × κ)) (render : κ → String) (k : String) :
    ((dim.map (fun p => (render p.2, p.1))).find? (fun p => p.1 == k)).map Prod.snd
      = (dim.find? (fun p => render p.2 == k)).map Prod.fst := by
  induction dim with
  | nil => rfl
  | cons q rest ih =>
    by_cases h : (render q.2 == k) = true
    · rw [List.map_cons,
        @List.find?_cons_of_pos (String × Nat) (fun p => p.1 == k) (render q.2, q.1) _ h,
        @List.find?_cons_of_pos (Nat × κ) (fun p => render p.2 == k) q _ h]
      rfl
    · rw [List.map_cons,
        @List.find?_cons_of_neg (String × Nat) (fun p => p.1 == k) (render q.2, q.1) _ h,
        @List.find?_cons_of_neg (Nat × κ) (fun p => render p.2 == k) q _ h, ih]

/-- C1 (corrected: the round trip reproduces every curated field on every row
whose four foreign keys resolved, with one exception the original claim missed:
`dia_semana` survives the rejoin only when its curated value is one of the six
unaccented day names of `ORDEN_DIAS`, and is otherwise replaced by `NaN` by the
categorical binding of `Horario_cubo.__init__` — in particular every Saturday
row, whose curated value is the accented `"Sábado"` written by `DIA_MAP`, comes
back with an absent `dia_semana`).  All other listed fields — professor, clave,
materia, edificio, aula, codigo_salon, dia_codigo, h_inicio, h_fin, nrc,
duracion_min — are reproduced exactly, row by row in order. -/
theorem C1_theorem (raw : List RawRow) (s : StarSchema)
    (hok : transform_all raw = .ok s) :
    List.Forall₂ (fun c rowc =>
      (rowc.id_docente.isSome = true ∧ rowc.id_materia.isSome = true ∧
       rowc.id_espacio.isSome = true ∧ rowc.id_tiempo.isSome = true) →
      (rowc.nombreCompleto = c.profesor ∧ rowc.clave = c.clave ∧
       rowc.nombreMateria = c.materia ∧ rowc.edificio = c.edificio ∧
       rowc.aula = c.aula ∧ rowc.codigo_salon = c.codigo_salon ∧
       rowc.dia_codigo = some c.dia_codigo ∧
       rowc.dia_semana =
         (if c.dia_semana ∈ ORDEN_DIAS then some c.dia_semana else none) ∧
       rowc.h_inicio = c.h_inicio ∧ rowc.h_fin = c.h_fin ∧
       rowc.nrc = c.nrc ∧ rowc.duracion_min = c.duracion_min))
      (curate raw) (cubo_of_schema s) := by
  obtain ⟨idsDoc, idsMat, idsEsp, h1, h2, h3, hs⟩ := transform_all_ok_parts raw s hok
  obtain ⟨hinj1, hids1⟩ := map_id_ok h1
  obtain ⟨hinj2, hids2⟩ := map_id_ok h2
  obtain ⟨hinj3, hids3⟩ := map_id_ok h3
  rw [List.map_map] at hids1 hids2 hids3
  subst hids1 hids2 hids3 hs
  simp only [cubo_of_schema]
  rw [zipFacts_map]
  simp only [Horario_cubo_init, List.map_map]
  rw [List.forall₂_map_right_iff, List.forall₂_same]
  intro c hcmem
  intro _
  obtain ⟨q1, hf1, hm1, hv1, hl1⟩ := dim_resolve ((curate raw).map (fun c2 => c2.profesor))
    pyStr c.profesor (List.mem_map_of_mem _ hcmem)
    (by rw [List.map_map] at hinj1; exact hinj1)
  obtain ⟨q2, hf2, hm2, hv2, hl2⟩ := dim_resolve ((curate raw).map materiaKeyOf)
    (fun mk => pyKey [mk.clave, mk.materia]) (materiaKeyOf c)
    (List.mem_map_of_mem _ hcmem)
    (by rw [List.map_map] at hinj2; exact hinj2)
  obtain ⟨q3, hf3, hm3, hv3, hl3⟩ := dim_resolve ((curate raw).map espacioKeyOf)
    (fun ek => pyStr ek.codigo_salon) (espacioKeyOf c)
    (List.mem_map_of_mem _ hcmem)
    (by rw [List.map_map] at hinj3; exact hinj3)
  obtain ⟨q4, hf4, hm4, hv4, hl4⟩ := tiempo_resolve ((curate raw).map tiempoKeyOf)
    (tiempoKeyOf c) (List.mem_map_of_mem _ hcmem)
  have e1 := find_pair_map (build_dim ((curate raw).map (fun c2 => c2.profesor)))
    pyStr (pyStr c.profesor)
  rw [hf1] at e1
  simp only [Option.map_some'] at e1
  have e2 := find_pair_map (build_dim ((curate raw).map materiaKeyOf))
    (fun mk => pyKey [mk.clave, mk.materia])
    (pyKey [(materiaKeyOf c).clave, (materiaKeyOf c).materia])
  rw [hf2] at e2
  simp only [Option.map_some'] at e2
  have e3 := find_pair_map (build_dim ((curate raw).map espacioKeyOf))
    (fun ek => pyStr ek.codigo_salon) (pyStr (espacioKeyOf c).codigo_salon)
  rw [hf3] at e3
  simp only [Option.map_some'] at e3
  have e4 : lookupTiempo (build_dim ((curate raw).map tiempoKeyOf)) c = some q4.1 := by
    rw [lookupTiempo, hf4]
    rfl
  refine ⟨?_, ?_, ?_, ?_, ?_, ?_, ?_, ?_, ?_, ?_, rfl, rfl⟩
  · have step := congrArg (fun o : Option Nat =>
      (o.bind (fun i => (build_dim ((curate raw).map (fun c2 => c2.profesor))).find?
        (fun p => p.1 == i))).bind Prod.snd) e1
    simp only [Option.some_bind] at step
    rw [hl1] at step
    simp only [Option.some_bind] at step
    rw [hv1] at step
    exact step
  · have step := congrArg (fun o : Option Nat =>
      Option.or ((o.bind (fun i => (build_dim ((curate raw).map materiaKeyOf)).find?
        (fun p => p.1 == i))).bind (fun p => p.2.clave)) c.clave) e2
    simp only [Option.some_bind] at step
    rw [hl2] at step
    simp only [Option.some_bind] at step
    rw [hv2] at step
    have hor : Option.or c.clave c.clave = c.clave := Option.or_self
    exact step.trans hor
  · have step := congrArg (fun o : Option Nat =>
      (o.bind (fun i => (build_dim ((curate raw).map materiaKeyOf)).find?
        (fun p => p.1 == i))).bind (fun p => p.2.materia)) e2
    simp only [Option.some_bind] at step
    rw [hl2] at step
    simp only [Option.some_bind] at step
    rw [hv2] at step
    exact step
  · have step := congrArg (fun o : Option Nat =>
      (o.bind (fun i => (build_dim ((curate raw).map espacioKeyOf)).find?
        (fun p => p.1 == i))).bind (fun p => p.2.edificio)) e3
    simp only [Option.some_bind] at step
    rw [hl3] at step
    simp only [Option.some_bind] at step
    rw [hv3] at step
    exact step
  · have step := congrArg (fun o : Option Nat =>
      (o.bind (fun i => (build_dim ((curate raw).map espacioKeyOf)).find?
        (fun p => p.1 == i))).bind (fun p => p.2.aula)) e3
    simp only [Option.some_bind] at step
    rw [hl3] at step
    simp only [Option.some_bind] at step
    rw [hv3] at step
    exact step
  · have step := congrArg (fun o : Option Nat =>
      (o.bind (fun i => (build_dim ((curate raw).map espacioKeyOf)).find?
        (fun p => p.1 == i))).bind (fun p => p.2.codigo_salon)) e3
    simp only [Option.some_bind] at step
    rw [hl3] at step
    simp only [Option.some_bind] at step
    rw [hv3] at step
    exact step
  · have step := congrArg (fun o : Option Nat =>
      (o.bind (fun i => (build_dim ((curate raw).map tiempoKeyOf)).find?
        (fun p => p.1 == i))).map (fun p => p.2.dia_codigo)) e4
    simp only [Option.some_bind] at step
    rw [hl4] at step
    simp only [Option.map_some'] at step
    rw [hv4] at step
    exact step
  · have step := congrArg (fun o : Option Nat =>
      categorize ((o.bind (fun i => (build_dim ((curate raw).map tiempoKeyOf)).find?
        (fun p => p.1 == i))).map (fun p => p.2.dia_semana))) e4
    simp only [Option.some_bind] at step
    rw [hl4] at step
    simp only [Option.map_some'] at step
    rw [hv4] at step
    have hcat : categorize (some (tiempoKeyOf c).dia_semana) =
        (if c.dia_semana ∈ ORDEN_DIAS then some c.dia_semana else none) := rfl
    exact step.trans hcat
  · have step := congrArg (fun o : Option Nat =>
      toTimeCell ((o.bind (fun i => (build_dim ((curate raw).map tiempoKeyOf)).find?
        (fun p => p.1 == i))).bind (fun p => p.2.h_inicio))) e4
    simp only [Option.some_bind] at step
    rw [hl4] at step
    simp only [Option.some_bind] at step
    rw [hv4] at step
    exact step.trans (toTimeCell_id ((tiempoKeyOf c).h_inicio))
  · have step := congrArg (fun o : Option Nat =>
      toTimeCell ((o.bind (fun i => (build_dim ((curate raw).map tiempoKeyOf)).find?
        (fun p => p.1 == i))).bind (fun p => p.2.h_fin))) e4
    simp only [Option.some_bind] at step
    rw [hl4] at step
    simp only [Option.some_bind] at step
    rw [hv4] at step
    exact step.trans (toTimeCell_id ((tiempoKeyOf c).h_fin))

/-- C1 counterexample to the original wording: a single Saturday raw row
transforms successfully, its one cube row resolves all four foreign keys, yet
the cube's `dia_semana` is absent while the curated value is `"Sábado"` — the
field is not reproduced. -/
theorem C1_counterexample :
    (match transform_all [sabadoRaw] with
     | .ok s =>
       ((curate [sabadoRaw]).length == 1 &&
        (curate [sabadoRaw]).all (fun c => c.dia_semana == "Sábado") &&
        (cubo_of_schema s).length == (curate [sabadoRaw]).length &&
        (cubo_of_schema s).all (fun r =>
          r.id_docente.isSome && r.id_materia.isSome &&
          r.id_espacio.isSome && r.id_tiempo.isSome &&
          r.dia_semana == none))
     | .error _ => false) = true := by rfl

/-- C1 witness: the round-trip theorem instantiated on one concrete Monday raw
row, whose `transform_all` run succeeds. -/
theorem C1_witness :
    List.Forall₂ (fun c rowc =>
      (rowc.id_docente.isSome = true ∧ rowc.id_materia.isSome = true ∧
       rowc.id_espacio.isSome = true ∧ rowc.id_tiempo.isSome = true) →
      (rowc.nombreCompleto = c.profesor ∧ rowc.clave = c.clave ∧
       rowc.nombreMateria = c.materia ∧ rowc.edificio = c.edificio ∧
       rowc.aula = c.aula ∧ rowc.codigo_salon = c.codigo_salon ∧
       rowc.dia_codigo = some c.dia_codigo ∧
       rowc.dia_semana =
         (if c.dia_semana ∈ ORDEN_DIAS then some c.dia_semana else none) ∧
       rowc.h_inicio = c.h_inicio ∧ rowc.h_fin = c.h_fin ∧
       rowc.nrc = c.nrc ∧ rowc.duracion_min = c.duracion_min))
      (curate [c1Raw])
      (cubo_of_schema (match transform_all [c1Raw] with
        | .ok s => s
        | .error _ => ⟨[], [], [], [], []⟩)) :=
  C1_theorem [c1Raw] _ rfl

end CuboHorarios
